import Mathlib

/-!
Verification of `DeviceDatabaseUpdater.py` (Zaber Device Control Toolbox).

This file contains a shallow embedding of the algorithmic core of the
script: the unit-conversion classifier (`get_dimension_names`,
`get_device_unit_conversions`), the catalog extractor (`read_device_info`)
and the legacy-preserving enum merger (`read_binary_enum_file`,
`write_binary_enum_file`), followed by theorems settling the spec claims.

Modelling conventions:
* SQL queries are I/O boundaries: a function receives the row list the
  query would return (filtering/ordering done by SQL is modelled
  explicitly where the query text performs it).
* Python exceptions are modelled with `Except String`, carrying the
  exact message string built at the raise site.
* Python floats are only stored and copied by this program, never
  computed with, so scale values are modelled by `Rat`: any type with
  decidable equality models the data flow faithfully.
* Python `str.lower` / `str.upper` are modelled by ASCII
  `Char.toLower` / `Char.toUpper` maps; the database strings involved
  are ASCII.
-/

set_option maxRecDepth 20000

namespace ZaberUpdater

/-- Python `s.lower()`. -/
def pyLower (s : String) : String := ⟨s.data.map Char.toLower⟩

/-- Python `s.upper()`. -/
def pyUpper (s : String) : String := ⟨s.data.map Char.toUpper⟩

/-- Python `rawName.replace(" ", "_").replace("-", "_")` (line 495 of the
script): both patterns are single characters, so the two replacements are
one character map. -/
def sanitize (s : String) : String :=
  ⟨s.data.map (fun c => if c = ' ' ∨ c = '-' then '_' else c)⟩

/-- `leadsWith n l` is true when `n` is an initial segment of `l`. -/
def leadsWith : List Char → List Char → Bool
  | [], _ => true
  | _ :: _, [] => false
  | a :: as, b :: bs => a == b && leadsWith as bs

/-- `hasSub n l` is true when `n` occurs contiguously inside `l`. -/
def hasSub (needle : List Char) : List Char → Bool
  | [] => needle.isEmpty
  | c :: rest => leadsWith needle (c :: rest) || hasSub needle rest

/-- Python `needle in hay` for strings (substring containment). -/
def strIn (needle hay : String) : Bool := hasSub needle.data hay.data

/-! ### Association-list model of Python `dict` -/

/-- Lookup in a Python `dict` modelled as an association list. -/
def dlookup {α β : Type} [DecidableEq α] : List (α × β) → α → Option β
  | [], _ => none
  | (k, v) :: t, a => if k = a then some v else dlookup t a

/-- Python `d[k] = v`: overwrite the existing binding in place, or append
a new binding (Python dicts keep first-insertion order on update). -/
def dset {α β : Type} [DecidableEq α] : List (α × β) → α → β → List (α × β)
  | [], a, b => [(a, b)]
  | (k, v) :: t, a, b => if k = a then (a, b) :: t else (k, v) :: dset t a b

/-- Python `dict(pairs)`: later pairs overwrite earlier ones. -/
def dictOf {α β : Type} [DecidableEq α] (l : List (α × β)) : List (α × β) :=
  l.foldl (fun d e => dset d e.1 e.2) []

/-! ### Unit Conversion Classifier (lines 162-268) -/

/-- One row of the `Matlab_ProductsDimensionsFunctions` table, as used by
`get_device_unit_conversions`: product id, dimension id, scale and
conversion-function name. -/
structure ConvRow where
  productId : Nat
  dimensionId : Nat
  scale : Rat
  functionName : String
deriving DecidableEq, Repr

/-- The 6-tuple returned by `get_device_unit_conversions`. -/
structure UnitConversion where
  motionType : Nat
  positionScale : Rat
  velocityScale : Rat
  accelScale : Rat
  forceScale : Rat
  useResolution : Bool
deriving DecidableEq, Repr

/-- The initial values of lines 221-227 of the script. -/
def initUnitConversion : UnitConversion :=
  { motionType := 0, positionScale := 1, velocityScale := 1,
    accelScale := 1, forceScale := 1, useResolution := false }

/-- `get_dimension_names` (lines 162-190): build the dimension lookup
table from the `(Id, Name)` rows of `Matlab_Dimensions`.  A dict seeded
with `0 ↦ "none"` collects the rows, then a list of length
`maxIndex + 1` filled with `"unknown"` is overwritten at each dict key. -/
def get_dimension_names (rows : List (Nat × String)) : List String :=
  let dimensions := rows.foldl (fun d r => dset d r.1 r.2) [(0, "none")]
  let maxIndex := rows.foldl (fun m r => max m r.1) 0
  dimensions.foldl (fun res kv => res.set kv.1 kv.2)
    (List.replicate (maxIndex + 1) "unknown")

/-- The body of the row loop of `get_device_unit_conversions`
(lines 231-266).  `aDimensionTable[dimensionId]` is a Python list index:
an id beyond the end of the table raises `IndexError` (ids are
database keys, hence nonnegative). -/
def processRow (aDimensionTable : List String) (st : UnitConversion)
    (row : ConvRow) : Except String UnitConversion :=
  let function := pyLower row.functionName
  match aDimensionTable[row.dimensionId]? with
  | none => .error "list index out of range"
  | some raw =>
    let dimensionName := pyLower raw
    if dimensionName = "length" ∨ dimensionName = "angle" then
      let st := { st with positionScale := row.scale }
      let st := if strIn "resolution" function then
                  { st with useResolution := true } else st
      if strIn "linear" function then
        let mt := if dimensionName = "length" ∨ dimensionName = "velocity"
                      ∨ dimensionName = "acceleration" then 1
                  else if strIn "ang" dimensionName then 2
                  else if strIn "none" dimensionName ∨ dimensionName.length < 1 then 0
                  else 9
        .ok { st with motionType := mt }
      else if strIn "tangential" function then
        .ok { st with motionType := 3 }
      else
        .error ("Unrecognized position unit conversion function " ++ function)
    else if strIn "velocity" dimensionName then
      .ok { st with velocityScale := row.scale }
    else if strIn "acceleration" dimensionName then
      .ok { st with accelScale := row.scale }
    else if dimensionName = "force" ∨ dimensionName = "torque" then
      .ok { st with forceScale := row.scale }
    else
      .ok st

/-- The row loop of `get_device_unit_conversions` applied to the rows the
`WHERE ProductId = ...` query returned, in query order. -/
def processConversionRows (aDimensionTable : List String)
    (rows : List ConvRow) : Except String UnitConversion :=
  rows.foldlM (processRow aDimensionTable) initUnitConversion

/-- `get_device_unit_conversions` (lines 193-268): select this product's
rows from the conversion table and fold the classifier over them. -/
def get_device_unit_conversions (aDimensionTable : List String)
    (allRows : List ConvRow) (aProductId : Nat) : Except String UnitConversion :=
  processConversionRows aDimensionTable
    (allRows.filter (fun r => r.productId = aProductId))

/-! ### Catalog Extractor (lines 272-360) -/

/-- One row of `Matlab_Devices`: device id, firmware version triple,
display name and the primary key used to join peripherals. -/
structure DeviceRow where
  deviceId : Nat
  major : Int
  minor : Int
  build : Int
  name : String
  pk : Nat
deriving DecidableEq, Repr

/-- One row of `Matlab_Peripherals`: peripheral id, display name, the
parent device's primary key and this row's primary key. -/
structure PeripheralRow where
  peripheralId : Nat
  name : String
  parentId : Nat
  pk : Nat
deriving DecidableEq, Repr

/-- A row of the generated peripheral table (sPeripheralSchema). -/
structure Peripheral where
  peripheralId : Nat
  name : String
  unit : UnitConversion
deriving DecidableEq, Repr

/-- A row of the generated device table (sDeviceSchema). -/
structure Device where
  deviceId : Nat
  name : String
  peripherals : List Peripheral
deriving DecidableEq, Repr

/-- The relational snapshot `read_device_info` queries: the four source
tables, each as the raw row list of the store. -/
structure Database where
  dimensionRows : List (Nat × String)
  deviceRows : List DeviceRow
  peripheralRows : List PeripheralRow
  conversionRows : List ConvRow
deriving Repr

/-- `ORDER BY DeviceId, MajorVersion DESC, MinorVersion DESC, Build DESC`
(line 292) as a total Boolean preorder for a stable merge sort. -/
def deviceRowLE (a b : DeviceRow) : Bool :=
  decide (a.deviceId < b.deviceId) ||
    (decide (a.deviceId = b.deviceId) &&
      (decide (b.major < a.major) ||
        (decide (a.major = b.major) &&
          (decide (b.minor < a.minor) ||
            (decide (a.minor = b.minor) && decide (b.build ≤ a.build))))))

/-- The device query result of line 292 (a stable sort, like any SQL
`ORDER BY` respecting the stated keys). -/
def sortDeviceRows (rows : List DeviceRow) : List DeviceRow :=
  rows.insertionSort (fun a b => deviceRowLE a b = true)

/-- `ORDER BY PeripheralId` (line 320). -/
def sortPeripheralRows (rows : List PeripheralRow) : List PeripheralRow :=
  rows.insertionSort (fun a b => a.peripheralId ≤ b.peripheralId)

/-- Lines 298-306: walk the sorted device rows keeping only the first row
(highest firmware) of each device id.  `currentId` starts at `-1`. -/
def selectLatest (rows : List DeviceRow) : List DeviceRow :=
  (rows.foldl
    (fun (acc : Int × List DeviceRow) row =>
      if (row.deviceId : Int) ≠ acc.1 then ((row.deviceId : Int), acc.2 ++ [row])
      else acc)
    (-1, [])).2

/-- The body of the peripheral loop (lines 342-354): one output
peripheral from its row, classified via its own product-reference key. -/
def buildPeripheral (db : Database) (dimensions : List String)
    (p : PeripheralRow) : Except String Peripheral := do
  let unit ← get_device_unit_conversions dimensions db.conversionRows p.pk
  pure { peripheralId := p.peripheralId, name := p.name, unit := unit }

/-- Lines 312-356: build one output device from its selected row.  When
the peripheral query returns no rows the device is "not a controller" and
a single placeholder peripheral (id 0, empty name) is synthesized, with
units classified from the device's own product-reference key. -/
def buildDevice (db : Database) (dimensions : List String)
    (d : DeviceRow) : Except String Device :=
  if (sortPeripheralRows
      (db.peripheralRows.filter (fun p => p.parentId = d.pk))).length < 1 then do
    let unit ← get_device_unit_conversions dimensions db.conversionRows d.pk
    pure { deviceId := d.deviceId, name := d.name,
           peripherals := [{ peripheralId := 0, name := "", unit := unit }] }
  else do
    let ps ← (sortPeripheralRows
      (db.peripheralRows.filter (fun p => p.parentId = d.pk))).mapM
      (buildPeripheral db dimensions)
    pure { deviceId := d.deviceId, name := d.name, peripherals := ps }

/-- `read_device_info` (lines 272-360).  Raises
`IOError("No devices found in this database!")` when the device query
yields no rows (lines 295-296). -/
def read_device_info (db : Database) : Except String (List Device) :=
  if (sortDeviceRows db.deviceRows).length < 1 then
    .error "No devices found in this database!"
  else (selectLatest (sortDeviceRows db.deviceRows)).mapM
    (buildDevice db (get_dimension_names db.dimensionRows))

/-! ### Legacy-preserving enum merger (lines 423-543)

The file content handled by `read_binary_enum_file` /
`write_binary_enum_file` is modelled as the `String` (equivalently its
`List Char` of code points) that the Python code reads and writes; byte
identity of the written `.m` files is string identity. -/

/-- Python `\s` character class (`re` module, ASCII input). -/
def isWS (c : Char) : Bool :=
  c = ' ' ∨ c = '\t' ∨ c = '\n' ∨ c = '\r' ∨ c = '\x0b' ∨ c = '\x0c'

/-- Split file content into lines at `'\n'` (the regex of line 442 is
matched against each line; the trailing newline kept by `readlines`
cannot take part in a match, so it is dropped here). -/
def splitLinesC : List Char → List (List Char)
  | [] => [[]]
  | c :: t =>
    if c = '\n' then [] :: splitLinesC t
    else
      match splitLinesC t with
      | [] => [[c]]
      | line :: rest => (c :: line) :: rest

/-- Value of a nonempty digit string, as read by `int(...)`. -/
def digitsVal (l : List Char) : Nat :=
  l.foldl (fun a c => a * 10 + (c.toNat - 48)) 0

/-- Matching of one line against `^\s+([^\s]+)\s+\((\d+)\)` (line 442).
Greedy matching with backtracking collapses to maximal-munch here: the
captured token is the first maximal nonspace run, which must be followed
by whitespace and then a parenthesized digit string (each maximal run
written as its `takeWhile`, with the rest of the line the matching
`dropWhile`). -/
def parseLineC (l : List Char) : Option (String × Int) :=
  if (l.takeWhile isWS).isEmpty then none
  else if ((l.dropWhile isWS).takeWhile (fun c => !isWS c)).isEmpty then none
  else if (((l.dropWhile isWS).dropWhile (fun c => !isWS c)).takeWhile
      isWS).isEmpty then none
  else
    match ((l.dropWhile isWS).dropWhile (fun c => !isWS c)).dropWhile isWS with
    | [] => none
    | c :: r4 =>
      if c = '(' then
        if (r4.takeWhile Char.isDigit).isEmpty then none
        else
          match r4.dropWhile Char.isDigit with
          | [] => none
          | c2 :: _ =>
            if c2 = ')' then
              some (⟨(l.dropWhile isWS).takeWhile (fun c => !isWS c)⟩,
                (digitsVal (r4.takeWhile Char.isDigit) : Int))
            else none
      else none

/-- `read_binary_enum_file` (lines 423-453): the `(name, value)` pairs of
all lines matching the enum-entry regex, in file order. -/
def read_binary_enum_file (content : String) : List (String × Int) :=
  (splitLinesC content.data).filterMap parseLineC

/-- `namesByValue`: for each `(name, code)` of the dict in insertion
order, `namesByValue.setdefault(code, []); namesByValue[code].append(name)`
(lines 487-489 and 498-499, 514). -/
def appendAlias (d : List (Int × List String)) (code : Int) (name : String) :
    List (Int × List String) :=
  match dlookup d code with
  | none => d ++ [(code, [name])]
  | some l => dset d code (l ++ [name])

/-- Lines 486-489: rebuild the registry maps from a parsed prior file. -/
def buildNamesByValue (valuesByName : List (String × Int)) :
    List (Int × List String) :=
  valuesByName.foldl (fun d e => appendAlias d e.2 e.1) []

/-- The alias list registered for a code (empty when the code is
absent). -/
def aliasesOf (d : List (Int × List String)) (c : Int) : List String :=
  (dlookup d c).getD []

/-- The merge-state for one incoming `(code, rawName)` pair
(lines 494-517), for the case where the local `valuesByName` is bound.
First component is `valuesByName`, second is `namesByValue`. -/
def mergePairP (st : List (String × Int) × List (Int × List String))
    (p : Int × String) : List (String × Int) × List (Int × List String) :=
  match dlookup st.2 p.1 with
  | none =>
      (dset st.1 (sanitize p.2) p.1, appendAlias st.2 p.1 (sanitize p.2))
  | some aliases =>
      if aliases.any (fun oldName =>
          pyLower oldName == pyLower (sanitize p.2)) then st
      else (dset st.1 (sanitize p.2) p.1, appendAlias st.2 p.1 (sanitize p.2))

/-- The message of the `UnboundLocalError` raised when line 501 (or 515,
or 520) reads `valuesByName` although only the misspelled local
`valuesbyName` was initialized on line 480 (the file-exists branch of
line 486 is the only binding of `valuesByName` before the loop). -/
def unboundMsg : String :=
  "local variable 'valuesByName' referenced before assignment"

/-- One iteration of the merge loop (lines 494-517), with the local
`valuesByName` modelled as `Option` (`none` = never assigned): reading it
raises `UnboundLocalError`.  `namesByValue` is mutated on lines 498-499
before `valuesByName` is read on line 501. -/
def mergeStep
    (st : Option (List (String × Int)) × List (Int × List String))
    (p : Int × String) :
    Except String (Option (List (String × Int)) × List (Int × List String)) :=
  match dlookup st.2 p.1 with
  | none =>
      match st.1 with
      | none => .error unboundMsg
      | some valuesByName =>
          .ok (some (dset valuesByName (sanitize p.2) p.1),
               appendAlias st.2 p.1 (sanitize p.2))
  | some aliases =>
      if aliases.any (fun oldName =>
          pyLower oldName == pyLower (sanitize p.2)) then .ok st
      else
        match st.1 with
        | none => .error unboundMsg
        | some valuesByName =>
            .ok (some (dset valuesByName (sanitize p.2) p.1),
                 appendAlias st.2 p.1 (sanitize p.2))

/-- Lines 519-521: `maxLength`, starting from 1. -/
def maxNameLength (valuesByName : List (String × Int)) : Nat :=
  valuesByName.foldl (fun m e => max m e.1.length) 1

/-- Lexicographic code-point comparison of character lists: Python's
string `<=`. -/
def charListLE : List Char → List Char → Bool
  | [], _ => true
  | _ :: _, [] => false
  | a :: as, b :: bs =>
      if a.toNat < b.toNat then true
      else if b.toNat < a.toNat then false
      else charListLE as bs

/-- Python string comparison, as used by `sorted` on names. -/
def stringLE (a b : String) : Bool := charListLE a.data b.data

/-- `sorted(valuesByName.keys())` (line 531): Python string sort is the
lexicographic code-point order (a stable sort; the keys are distinct, so
any sorting algorithm gives the same list). -/
def sortedNames (valuesByName : List (String × Int)) : List String :=
  (valuesByName.map Prod.fst).insertionSort (fun a b => stringLE a b = true)

/-- The `generatedNames` guard of lines 523 and 534-535: keep the first
occurrence of each name. -/
def dedupFirst : List String → List String → List String
  | [], _ => []
  | n :: rest, seen =>
      if n ∈ seen then dedupFirst rest seen
      else n :: dedupFirst rest (n :: seen)

/-- The entries emitted by the output loop (lines 530-539): one
`(name, valuesByName[name])` per not-yet-generated name, in sorted
order. -/
def finalEntries (valuesByName : List (String × Int)) : List (String × Int) :=
  (dedupFirst (sortedNames valuesByName) []).filterMap
    (fun n => (dlookup valuesByName n).map (fun c => (n, c)))

/-- `name.ljust(maxLength, " ")`: the name padded on the right with
spaces up to `maxLength` columns. -/
def ljustC (l : List Char) (w : Nat) : List Char :=
  l ++ List.replicate (w - l.length) ' '

/-- Decimal digits of a natural number (what `%d` prints), fuelled to
stay structural. -/
def natDigitsAux : Nat → Nat → List Char → List Char
  | 0, _, acc => acc
  | fuel + 1, n, acc =>
      let acc := Char.ofNat (48 + n % 10) :: acc
      if n < 10 then acc else natDigitsAux fuel (n / 10) acc

/-- Decimal digit string of a natural number. -/
def natDigits (n : Nat) : List Char := natDigitsAux (n + 1) n []

/-- `%d` for a Python int. -/
def intChars (i : Int) : List Char :=
  if i < 0 then '-' :: natDigits i.natAbs else natDigits i.toNat

/-- One emitted enum line, `"        %s (%d)" % (name.ljust(maxLength), code)`
(line 539): eight leading spaces, the padded name (`ljustC`, inlined in
right-associated form), a space, and the code in parentheses. -/
def entryLineC (maxLength : Nat) (e : String × Int) : List Char :=
  ("        ").data ++
    (e.1.data ++
      (List.replicate (maxLength - e.1.data.length) ' ' ++
        (' ' :: '(' :: (intChars e.2 ++ [')']))))

/-- The entry block written by lines 530-539: `",\n"` before every entry
but the first. -/
def joinBody (maxLength : Nat) : List (String × Int) → List Char
  | [] => []
  | [e] => entryLineC maxLength e
  | e :: rest => entryLineC maxLength e ++ ',' :: '\n' :: joinBody maxLength rest

/-- Line 525 without its trailing newlines (`%%` prints a literal `%`). -/
def headerLine1 (aEnumName : String) : List Char :=
  ("%   ").data ++ (pyUpper aEnumName).data ++
    (" Enumeration to assist with interpreting Zaber Binary protocol codes.").data

/-- Line 526 without its trailing newlines. -/
def headerLine2 : List Char :=
  ("%   THIS IS A GENERATED FILE - DO NOT EDIT. See DeviceDatabaseUpdater.py.").data

/-- Line 527 without its newline. -/
def classdefLine (aEnumName aBaseType : String) : List Char :=
  ("classdef ").data ++ aEnumName.data ++ (" < ").data ++ aBaseType.data

/-- The characters written by lines 542-543. -/
def footerChars : List Char :=
  ("    end").data ++ '\n' :: ("end").data ++ ['\n']

/-- The full file content written by lines 524-543: two header comment
lines each followed by a blank line, the `classdef` and `enumeration`
lines, the entry block, and the two closing lines. -/
def renderFile (aEnumName aBaseType : String)
    (valuesByName : List (String × Int)) : String :=
  ⟨headerLine1 aEnumName ++ '\n' :: '\n' ::
    (headerLine2 ++ '\n' :: '\n' ::
      (classdefLine aEnumName aBaseType ++ '\n' ::
        (("    enumeration").data ++ '\n' ::
          (joinBody (maxNameLength valuesByName) (finalEntries valuesByName) ++
            '\n' :: footerChars))))⟩

/-- The fully merged `valuesByName` dict for a run that found a prior
file with the given content (lines 486-517). -/
def mergedValues (priorContent : String) (aCodeTable : List (Int × String)) :
    List (String × Int) :=
  let valuesByName := dictOf (read_binary_enum_file priorContent)
  (aCodeTable.foldl mergePairP (valuesByName, buildNamesByValue valuesByName)).1

/-- `write_binary_enum_file` (lines 456-543).  `priorContent` is the
content of the existing `aEnumName ++ ".m"` file, `none` when no such
file exists; the result is the new file content, or the exception the
run raises.  When no prior file exists, only the misspelled
`valuesbyName` of line 480 is bound, so the merge loop (line 501/515) or
the `maxLength` loop (line 520) raises `UnboundLocalError` on its first
read of `valuesByName`. -/
def write_binary_enum_file (aCodeTable : List (Int × String))
    (aEnumName aBaseType : String) (priorContent : Option String) :
    Except String String := do
  let st0 : Option (List (String × Int)) × List (Int × List String) :=
    match priorContent with
    | some content =>
        let valuesByName := dictOf (read_binary_enum_file content)
        (some valuesByName, buildNamesByValue valuesByName)
    | none => (none, [])
  let st ← aCodeTable.foldlM mergeStep st0
  match st.1 with
  | none => .error unboundMsg
  | some valuesByName => .ok (renderFile aEnumName aBaseType valuesByName)

deriving instance DecidableEq for Except

/-- A name of the shape the enum pipeline produces: nonempty and free of
whitespace characters (so its rendered entry line re-parses to itself). -/
def WfName (n : String) : Prop :=
  n.data ≠ [] ∧ ∀ c ∈ n.data, isWS c = false

/-- Enum and base-type names free of newlines, so the generated header
lines stay single lines. -/
def HeaderSafe (aEnumName aBaseType : String) : Prop :=
  (∀ c ∈ aEnumName.data, c ≠ '\n') ∧
  (∀ c ∈ (pyUpper aEnumName).data, c ≠ '\n') ∧
  (∀ c ∈ aBaseType.data, c ≠ '\n')

/-- Invariant of the merge loop: every alias registered in
`namesByValue` either still has its code as its current `valuesByName`
binding, or was rebound by one of the already-processed pairs `P`
(which then carries a case-insensitively equal sanitized name). -/
def AliasSound (P : List (Int × String))
    (st : List (String × Int) × List (Int × List String)) : Prop :=
  ∀ c al, dlookup st.2 c = some al → ∀ o ∈ al,
    dlookup st.1 o = some c ∨ ∃ p ∈ P, pyLower (sanitize p.2) = pyLower o

/-- Every pair of `P` is represented in the dict: some name bound to the
pair's code is case-insensitively equal to the pair's sanitized name. -/
def Incorporated (P : List (Int × String)) (M : List (String × Int)) : Prop :=
  ∀ p ∈ P, ∃ o, dlookup M o = some p.1 ∧ pyLower o = pyLower (sanitize p.2)

instance (n : String) : Decidable (WfName n) := by
  unfold WfName; infer_instance

instance (aEnumName aBaseType : String) : Decidable (HeaderSafe aEnumName aBaseType) := by
  unfold HeaderSafe; infer_instance

/-! ## Claims -/

/-- C1 (counterexample): running the merge twice with the same pair list
is not always byte-identical to running it once.  With an entry-less
prior listing and incoming pairs `[(1, "a"), (2, "a")]`, the first run
emits `a (2)` (the second pair rebinds the name), while the second run,
reading that output back, first re-adds `a` at the then-unknown code 1
and then discards `(2, "a")` as a case-insensitive duplicate, emitting
`a (1)`. -/
theorem claim1_counterexample :
    (write_binary_enum_file [(1, "a"), (2, "a")] "BinaryCommandType" "uint8"
        (some (renderFile "BinaryCommandType" "uint8" []))).bind
      (fun f1 => write_binary_enum_file [(1, "a"), (2, "a")]
        "BinaryCommandType" "uint8" (some f1)) ≠
    write_binary_enum_file [(1, "a"), (2, "a")] "BinaryCommandType" "uint8"
      (some (renderFile "BinaryCommandType" "uint8" [])) := by
  decide

/-- C2 (code bug): when no prior generated listing file exists, the claim
says the merge starts from an empty registry and completes normally.  The
code instead raises `UnboundLocalError` for every code table, because
line 480 initializes the misspelled local `valuesbyName` and the
`valuesByName` actually used (lines 501/515/520) is only bound when a
prior file exists (line 486). -/
theorem claim2_no_prior_file_raises (aCodeTable : List (Int × String))
    (aEnumName aBaseType : String) :
    write_binary_enum_file aCodeTable aEnumName aBaseType none =
      .error unboundMsg := by
  cases aCodeTable with
  | nil => rfl
  | cons p rest => rfl

/-- C3: per incoming `(code, rawName)` pair whose code already has
aliases, a case-insensitive match with an existing alias discards the
pair (the registry is unchanged, so the pre-existing casing stays);
otherwise the sanitized name is appended as an additional alias for the
code.  Concretely, merging `("foo", 5)` into a listing holding `Foo (5)`
reproduces that listing byte for byte: `"Foo"` is kept and no `"foo"`
entry appears. -/
theorem claim3_case_preservation
    (st : List (String × Int) × List (Int × List String))
    (code : Int) (rawName : String) (aliases : List String)
    (hA : dlookup st.2 code = some aliases) :
    (aliases.any (fun oldName => pyLower oldName == pyLower (sanitize rawName)) = true →
       mergePairP st (code, rawName) = st) ∧
    (aliases.any (fun oldName => pyLower oldName == pyLower (sanitize rawName)) = false →
       mergePairP st (code, rawName) =
         (dset st.1 (sanitize rawName) code,
          appendAlias st.2 code (sanitize rawName))) ∧
    write_binary_enum_file [(5, "foo")] "BinaryCommandType" "uint8"
        (some (renderFile "BinaryCommandType" "uint8" [("Foo", 5)])) =
      .ok (renderFile "BinaryCommandType" "uint8" [("Foo", 5)]) := by
  refine ⟨?_, ?_, by decide⟩
  · intro h
    simp only [mergePairP, hA, h, if_true]
  · intro h
    simp only [mergePairP, hA, h, Bool.false_eq_true, if_false]

/-- Witness for C3 at the claim's own example: prior name `"Foo"` at
code 5, incoming `"foo"` at code 5 is discarded. -/
theorem claim3_witness :
    mergePairP ([("Foo", 5)], [(5, ["Foo"])]) (5, "foo") =
      ([("Foo", 5)], [(5, ["Foo"])]) :=
  (claim3_case_preservation ([("Foo", 5)], [(5, ["Foo"])]) 5 "foo" ["Foo"]
    rfl).1 (by decide)

/-- C4 (counterexample): the claim says `usesResolutionDependentScale`
reflects the last-processed position-defining row, so it should be
`false` here (the last `length` row's function `"linear"` lacks
`"resolution"`).  The code only ever sets the flag and never clears it
(line 243-244), so it is `true`. -/
theorem claim4_counterexample :
    get_device_unit_conversions ["none", "length"]
        [⟨1, 1, 1, "linear-resolution"⟩, ⟨1, 1, 2, "linear"⟩] 1 =
      .ok { motionType := 1, positionScale := 2, velocityScale := 1,
            accelScale := 1, forceScale := 1, useResolution := true } ∧
    strIn "resolution" (pyLower "linear") = false := by
  exact ⟨rfl, rfl⟩

/-- A single classifier step can only raise the resolution flag, and
raises it exactly when the row is position-defining (dimension name
`length`/`angle`) and its lowered function name contains
`"resolution"`. -/
lemma processRow_ok_flag (tbl : List String) (st st' : UnitConversion)
    (r : ConvRow) (h : processRow tbl st r = .ok st') :
    st'.useResolution = true ↔ st.useResolution = true ∨
      (∃ dn, tbl[r.dimensionId]? = some dn ∧
        (pyLower dn = "length" ∨ pyLower dn = "angle") ∧
        strIn "resolution" (pyLower r.functionName) = true) := by
  cases hdn : tbl[r.dimensionId]? with
  | none => simp [processRow, hdn] at h
  | some dn =>
    simp only [processRow, hdn] at h
    by_cases hpos : pyLower dn = "length" ∨ pyLower dn = "angle"
    · rw [if_pos hpos] at h
      by_cases hres : strIn "resolution" (pyLower r.functionName) = true
      · rw [if_pos hres] at h
        split at h
        · cases h; simp [hdn, hpos, hres]
        · split at h
          · cases h; simp [hdn, hpos, hres]
          · simp at h
      · rw [if_neg hres] at h
        split at h
        · cases h; simp [hdn, hpos, hres]
        · split at h
          · cases h; simp [hdn, hpos, hres]
          · simp at h
    · rw [if_neg hpos] at h
      split at h
      · cases h; simp [hdn, hpos]
      · split at h
        · cases h; simp [hdn, hpos]
        · split at h
          · cases h; simp [hdn, hpos]
          · cases h; simp [hdn, hpos]

/-- Over a whole row list, the flag ends up true iff it started true or
some position-defining row's function name contains `"resolution"`. -/
lemma foldConv_flag (tbl : List String) : ∀ (rows : List ConvRow)
    (st u : UnitConversion),
    rows.foldlM (processRow tbl) st = .ok u →
    (u.useResolution = true ↔ st.useResolution = true ∨
      ∃ r ∈ rows, ∃ dn, tbl[r.dimensionId]? = some dn ∧
        (pyLower dn = "length" ∨ pyLower dn = "angle") ∧
        strIn "resolution" (pyLower r.functionName) = true)
  | [], st, u, h => by
      rw [List.foldlM_nil] at h
      cases h
      simp
  | r :: rows, st, u, h => by
      rw [List.foldlM_cons] at h
      cases hr : processRow tbl st r with
      | error e =>
        rw [hr] at h
        exact absurd (show (Except.error e : Except String UnitConversion) =
          .ok u from h) (by simp)
      | ok st1 =>
        rw [hr] at h
        replace h : rows.foldlM (processRow tbl) st1 = .ok u := h
        have ih := foldConv_flag tbl rows st1 u h
        have hs := processRow_ok_flag tbl st st1 r hr
        rw [ih, hs]
        constructor
        · rintro ((hf | hp) | ⟨r', hr', hq⟩)
          · exact Or.inl hf
          · exact Or.inr ⟨r, List.mem_cons_self r rows, hp⟩
          · exact Or.inr ⟨r', List.mem_cons_of_mem r hr', hq⟩
        · rintro (hf | ⟨r', hr', hq⟩)
          · exact Or.inl (Or.inl hf)
          · rcases List.mem_cons.mp hr' with rfl | hmem
            · exact Or.inl (Or.inr hq)
            · exact Or.inr ⟨r', hmem, hq⟩

/-- C4 (amended): for every successfully classified product, the
returned `usesResolutionDependentScale` flag is true iff SOME processed
position-defining row's lowered function name contains `"resolution"`
(the code only ever sets the flag, so a later position row without the
substring does not clear it). -/
theorem claim4_amended (aDimensionTable : List String)
    (allRows : List ConvRow) (aProductId : Nat) (u : UnitConversion)
    (h : get_device_unit_conversions aDimensionTable allRows aProductId = .ok u) :
    u.useResolution = true ↔
      ∃ r ∈ allRows, r.productId = aProductId ∧
        ∃ dn, aDimensionTable[r.dimensionId]? = some dn ∧
          (pyLower dn = "length" ∨ pyLower dn = "angle") ∧
          strIn "resolution" (pyLower r.functionName) = true := by
  have hf := foldConv_flag aDimensionTable
    (allRows.filter (fun r => r.productId = aProductId)) initUnitConversion u h
  rw [hf]
  simp only [initUnitConversion, Bool.false_eq_true, false_or, List.mem_filter,
    decide_eq_true_eq]
  constructor
  · rintro ⟨r, ⟨hmem, hpid⟩, hq⟩
    exact ⟨r, hmem, hpid, hq⟩
  · rintro ⟨r, hmem, hpid, hq⟩
    exact ⟨r, ⟨hmem, hpid⟩, hq⟩

/-- Witness for C4 (amended) at a single resolution-dependent row. -/
theorem claim4_witness :
    (UnitConversion.useResolution
        { motionType := 1, positionScale := 1, velocityScale := 1,
          accelScale := 1, forceScale := 1, useResolution := true } = true) ↔
      ∃ r ∈ [(⟨1, 1, 1, "linear-resolution"⟩ : ConvRow)], r.productId = 1 ∧
        ∃ dn, ["none", "length"][r.dimensionId]? = some dn ∧
          (pyLower dn = "length" ∨ pyLower dn = "angle") ∧
          strIn "resolution" (pyLower r.functionName) = true :=
  claim4_amended ["none", "length"] [⟨1, 1, 1, "linear-resolution"⟩] 1
    { motionType := 1, positionScale := 1, velocityScale := 1,
      accelScale := 1, forceScale := 1, useResolution := true } rfl

/-- C5: a position-defining row (dimension name `length` or `angle`)
whose lowered function name contains neither `"linear"` nor
`"tangential"` makes the whole classification of the product fail with
the `Unrecognized position unit conversion function` error (a `KeyError`
in the script), regardless of any rows that follow: the error is not
retried or swallowed. -/
theorem claim5_unrecognized_function (aDimensionTable : List String)
    (allRows : List ConvRow) (aProductId : Nat)
    (before after : List ConvRow) (row : ConvRow) (dn : String)
    (st : UnitConversion)
    (hfilter : allRows.filter (fun r => r.productId = aProductId) =
      before ++ row :: after)
    (hb : before.foldlM (processRow aDimensionTable) initUnitConversion = .ok st)
    (hdn : aDimensionTable[row.dimensionId]? = some dn)
    (hpos : pyLower dn = "length" ∨ pyLower dn = "angle")
    (hlin : strIn "linear" (pyLower row.functionName) = false)
    (htan : strIn "tangential" (pyLower row.functionName) = false) :
    get_device_unit_conversions aDimensionTable allRows aProductId =
      .error ("Unrecognized position unit conversion function " ++
        pyLower row.functionName) := by
  have hrow : processRow aDimensionTable st row =
      .error ("Unrecognized position unit conversion function " ++
        pyLower row.functionName) := by
    simp only [processRow, hdn]
    rw [if_pos hpos, if_neg (by simp [hlin]), if_neg (by simp [htan])]
  unfold get_device_unit_conversions processConversionRows
  rw [hfilter, List.foldlM_append, hb]
  show (row :: after).foldlM (processRow aDimensionTable) st =
    Except.error ("Unrecognized position unit conversion function " ++
      pyLower row.functionName)
  rw [List.foldlM_cons, hrow]
  rfl

/-- Witness for C5: a single `"quadratic"` position row is rejected. -/
theorem claim5_witness :
    get_device_unit_conversions ["none", "length"] [⟨1, 1, 1, "quadratic"⟩] 1 =
      .error ("Unrecognized position unit conversion function " ++
        pyLower "quadratic") :=
  claim5_unrecognized_function ["none", "length"] [⟨1, 1, 1, "quadratic"⟩] 1
    [] [] ⟨1, 1, 1, "quadratic"⟩ "length" initUnitConversion
    (by decide) rfl rfl (Or.inl rfl) (by decide) (by decide)

/-- C9 (counterexample): the claim says every dimension identifier
resolves to some name without an out-of-range failure.  A conversion row
whose dimension id exceeds the greatest id of the dimension table makes
`aDimensionTable[dimensionId]` raise `IndexError` (here the table built
from zero rows is `["none"]` and the row carries id 1). -/
theorem claim9_counterexample :
    get_device_unit_conversions (get_dimension_names [])
        [⟨1, 1, 1, "linear"⟩] 1 =
      .error "list index out of range" := by
  exact rfl

/-- Overwriting list entries in place preserves the length. -/
lemma length_foldl_set (l : List (Nat × String)) (init : List String) :
    (l.foldl (fun res kv => res.set kv.1 kv.2) init).length = init.length := by
  induction l generalizing init with
  | nil => rfl
  | cons a t ih => rw [List.foldl_cons, ih, List.length_set]

/-- Keys of `dset d k v` are `k` plus the keys of `d`. -/
lemma mem_keys_dset {α β : Type} [DecidableEq α] (d : List (α × β)) (k : α)
    (v : β) (a : α) :
    a ∈ (dset d k v).map Prod.fst ↔ a = k ∨ a ∈ d.map Prod.fst := by
  induction d with
  | nil => simp [dset]
  | cons e t ih =>
    obtain ⟨k', v'⟩ := e
    by_cases he : k' = k
    · subst he
      simp [dset]
    · simp only [dset, if_neg he, List.map_cons, List.mem_cons, ih]
      tauto

/-- Keys appearing after folding `dset` over rows come from the initial
dict or from the rows. -/
lemma keys_dictfold_sub (rows : List (Nat × String)) :
    ∀ (init : List (Nat × String)) (a : Nat),
    a ∈ (rows.foldl (fun d r => dset d r.1 r.2) init).map Prod.fst →
      a ∈ init.map Prod.fst ∨ a ∈ rows.map Prod.fst := by
  induction rows with
  | nil => intro init a h; exact Or.inl h
  | cons r t ih =>
    intro init a h
    rw [List.foldl_cons] at h
    rcases ih (dset init r.1 r.2) a h with h' | h'
    · rcases (mem_keys_dset init r.1 r.2 a).mp h' with rfl | h''
      · exact Or.inr (by simp)
      · exact Or.inl h''
    · exact Or.inr (List.mem_cons_of_mem _ h')

/-- Positions never touched by the `dset`-fold keep their initial
value. -/
lemma foldl_set_of_not_mem (l : List (Nat × String)) :
    ∀ (init : List String) (i : Nat), i ∉ l.map Prod.fst →
    (l.foldl (fun res kv => res.set kv.1 kv.2) init)[i]? = init[i]? := by
  induction l with
  | nil => intro init i _; rfl
  | cons a t ih =>
    intro init i h
    rw [List.foldl_cons, ih _ i (fun hm => h (List.mem_cons_of_mem _ hm)),
      List.getElem?_set_ne]
    intro he
    exact h (by simp [← he])


/-- C10: a conversion row whose resolved dimension name is neither
`"length"` nor `"angle"` never raises, leaves `motionType`,
`positionScale` and `usesResolutionDependentScale` unchanged, and at most
overwrites one of `velocityScale`, `accelScale`, `forceScale` (or
nothing). -/
theorem claim10_frame (aDimensionTable : List String) (st : UnitConversion)
    (row : ConvRow) (dn : String)
    (h : aDimensionTable[row.dimensionId]? = some dn)
    (hn : pyLower dn ≠ "length") (ha : pyLower dn ≠ "angle") :
    ∃ st', processRow aDimensionTable st row = .ok st' ∧
      st'.motionType = st.motionType ∧
      st'.positionScale = st.positionScale ∧
      st'.useResolution = st.useResolution ∧
      (st' = { st with velocityScale := row.scale } ∨
       st' = { st with accelScale := row.scale } ∨
       st' = { st with forceScale := row.scale } ∨
       st' = st) := by
  simp only [processRow, h]
  rw [if_neg (by rintro (h' | h') <;> [exact hn h'; exact ha h'])]
  split
  · exact ⟨_, rfl, rfl, rfl, rfl, Or.inl rfl⟩
  · split
    · exact ⟨_, rfl, rfl, rfl, rfl, Or.inr (Or.inl rfl)⟩
    · split
      · exact ⟨_, rfl, rfl, rfl, rfl, Or.inr (Or.inr (Or.inl rfl))⟩
      · exact ⟨_, rfl, rfl, rfl, rfl, Or.inr (Or.inr (Or.inr rfl))⟩

/-- Witness for C10: a `velocity` row only touches `velocityScale`. -/
theorem claim10_witness :
    ∃ st', processRow ["none", "velocity"] initUnitConversion
        ⟨1, 1, 4, "linear"⟩ = .ok st' ∧
      st'.motionType = initUnitConversion.motionType ∧
      st'.positionScale = initUnitConversion.positionScale ∧
      st'.useResolution = initUnitConversion.useResolution ∧
      (st' = { initUnitConversion with velocityScale := 4 } ∨
       st' = { initUnitConversion with accelScale := 4 } ∨
       st' = { initUnitConversion with forceScale := 4 } ∨
       st' = initUnitConversion) :=
  claim10_frame ["none", "velocity"] initUnitConversion ⟨1, 1, 4, "linear"⟩
    "velocity" rfl (by decide) (by decide)

/-- Shapes of the error messages the classifier can raise. -/
lemma processRow_error_shape (tbl : List String) (st : UnitConversion)
    (r : ConvRow) (e : String) (h : processRow tbl st r = .error e) :
    e = "list index out of range" ∨
    ∃ f, e = "Unrecognized position unit conversion function " ++ f := by
  cases hdn : tbl[r.dimensionId]? with
  | none =>
    simp only [processRow, hdn, Except.error.injEq] at h
    exact Or.inl h.symm
  | some dn =>
    simp only [processRow, hdn] at h
    split at h
    · split at h
      · simp at h
      · split at h
        · simp at h
        · exact Or.inr ⟨pyLower r.functionName, (Except.error.inj h).symm⟩
    · split at h
      · simp at h
      · split at h
        · simp at h
        · split at h
          · simp at h
          · simp at h

/-- Neither classifier error message is the empty-catalog message. -/
lemma classifier_msg_ne (e : String)
    (he : e = "list index out of range" ∨
      ∃ f, e = "Unrecognized position unit conversion function " ++ f) :
    e ≠ "No devices found in this database!" := by
  rcases he with rfl | ⟨f, rfl⟩
  · decide
  · intro hcontra
    have hlen := congrArg String.length hcontra
    rw [String.length_append] at hlen
    rw [show ("Unrecognized position unit conversion function ").length = 47
      from by decide] at hlen
    rw [show ("No devices found in this database!").length = 34
      from by decide] at hlen
    omega

/-- Errors escaping the classifier fold keep the classifier shapes. -/
lemma conv_error_shape (tbl : List String) : ∀ (rows : List ConvRow)
    (st : UnitConversion) (e : String),
    rows.foldlM (processRow tbl) st = .error e →
    e = "list index out of range" ∨
    ∃ f, e = "Unrecognized position unit conversion function " ++ f
  | [], st, e, h => by
    rw [List.foldlM_nil] at h
    exact absurd (show (Except.ok st : Except String UnitConversion) =
      .error e from h) (by simp)
  | r :: rows, st, e, h => by
    rw [List.foldlM_cons] at h
    cases hr : processRow tbl st r with
    | error e' =>
      rw [hr] at h
      cases (show (Except.error e' : Except String UnitConversion) =
        .error e from h)
      exact processRow_error_shape tbl st r e hr
    | ok st1 =>
      rw [hr] at h
      exact conv_error_shape tbl rows st1 e h

/-- `get_device_unit_conversions` never raises the empty-catalog
message. -/
lemma get_conv_error_ne (dims : List String) (allRows : List ConvRow)
    (pid : Nat) (e : String)
    (h : get_device_unit_conversions dims allRows pid = .error e) :
    e ≠ "No devices found in this database!" :=
  classifier_msg_ne e (conv_error_shape dims _ initUnitConversion e h)

/-- Errors escaping `mapM` come from one of the elements. -/
lemma mapM_error_of {α β : Type} (f : α → Except String β) (P : String → Prop)
    (hf : ∀ a e, f a = .error e → P e) : ∀ (l : List α) (e : String),
    l.mapM f = .error e → P e
  | [], e, h => by
    rw [List.mapM_nil] at h
    exact absurd (show (Except.ok ([] : List β) : Except String (List β)) =
      .error e from h) (by simp)
  | a :: t, e, h => by
    rw [List.mapM_cons] at h
    cases ha : f a with
    | error e' =>
      rw [ha] at h
      cases (show (Except.error e' : Except String (List β)) = .error e from h)
      exact hf a e ha
    | ok b =>
      rw [ha] at h
      cases hm : t.mapM f with
      | error e'' =>
        rw [hm] at h
        cases (show (Except.error e'' : Except String (List β)) =
          .error e from h)
        exact mapM_error_of f P hf t e hm
      | ok bs =>
        rw [hm] at h
        exact absurd (show (Except.ok (b :: bs) : Except String (List β)) =
          .error e from h) (by simp)

/-- A `mapM` that succeeds maps each output element back to an input. -/
lemma mapM_ok_mem {α β : Type} (f : α → Except String β) : ∀ (l : List α)
    (l' : List β), l.mapM f = .ok l' → ∀ b ∈ l', ∃ a ∈ l, f a = .ok b
  | [], l', h => by
    rw [List.mapM_nil] at h
    cases (show (Except.ok ([] : List β) : Except String (List β)) =
      .ok l' from h)
    intro b hb
    exact absurd hb (by simp)
  | a :: t, l', h => by
    rw [List.mapM_cons] at h
    cases ha : f a with
    | error e' =>
      rw [ha] at h
      exact absurd (show (Except.error e' : Except String (List β)) =
        .ok l' from h) (by simp)
    | ok b =>
      rw [ha] at h
      cases hm : t.mapM f with
      | error e'' =>
        rw [hm] at h
        exact absurd (show (Except.error e'' : Except String (List β)) =
          .ok l' from h) (by simp)
      | ok bs =>
        rw [hm] at h
        cases (show (Except.ok (b :: bs) : Except String (List β)) =
          .ok l' from h)
        intro b' hb'
        rcases List.mem_cons.mp hb' with rfl | hmem
        · exact ⟨a, List.mem_cons_self a t, ha⟩
        · rcases mapM_ok_mem f t bs hm b' hmem with ⟨a', ha', hfa'⟩
          exact ⟨a', List.mem_cons_of_mem a ha', hfa'⟩

/-- A `mapM` that succeeds preserves the length. -/
lemma mapM_ok_length {α β : Type} (f : α → Except String β) : ∀ (l : List α)
    (l' : List β), l.mapM f = .ok l' → l'.length = l.length
  | [], l', h => by
    rw [List.mapM_nil] at h
    cases (show (Except.ok ([] : List β) : Except String (List β)) =
      .ok l' from h)
    rfl
  | a :: t, l', h => by
    rw [List.mapM_cons] at h
    cases ha : f a with
    | error e' =>
      rw [ha] at h
      exact absurd (show (Except.error e' : Except String (List β)) =
        .ok l' from h) (by simp)
    | ok b =>
      rw [ha] at h
      cases hm : t.mapM f with
      | error e'' =>
        rw [hm] at h
        exact absurd (show (Except.error e'' : Except String (List β)) =
          .ok l' from h) (by simp)
      | ok bs =>
        rw [hm] at h
        cases (show (Except.ok (b :: bs) : Except String (List β)) =
          .ok l' from h)
        simp [mapM_ok_length f t bs hm]

/-- `buildDevice` never raises the empty-catalog message either. -/
lemma buildDevice_error_ne (db : Database) (dims : List String)
    (d : DeviceRow) (e : String) (h : buildDevice db dims d = .error e) :
    e ≠ "No devices found in this database!" := by
  unfold buildDevice at h
  split at h
  · cases hg : get_device_unit_conversions dims db.conversionRows d.pk with
    | error e' =>
      rw [hg] at h
      cases (show (Except.error e' : Except String Device) = .error e from h)
      exact get_conv_error_ne dims db.conversionRows d.pk e hg
    | ok u =>
      rw [hg] at h
      exact absurd (show (Except.ok _ : Except String Device) =
        .error e from h) (by simp)
  · cases hm : (sortPeripheralRows
        (db.peripheralRows.filter (fun p => p.parentId = d.pk))).mapM
        (buildPeripheral db dims) with
    | error e' =>
      rw [hm] at h
      cases (show (Except.error e' : Except String Device) = .error e from h)
      refine mapM_error_of (buildPeripheral db dims)
        (fun e' => e' ≠ "No devices found in this database!") ?_ _ e hm
      intro p ep hp
      unfold buildPeripheral at hp
      cases hg : get_device_unit_conversions dims db.conversionRows p.pk with
      | error eg =>
        rw [hg] at hp
        cases (show (Except.error eg : Except String Peripheral) =
          .error ep from hp)
        exact get_conv_error_ne dims db.conversionRows p.pk ep hg
      | ok u =>
        rw [hg] at hp
        exact absurd (show (Except.ok _ : Except String Peripheral) =
          .error ep from hp) (by simp)
    | ok ps =>
      rw [hm] at h
      exact absurd (show (Except.ok _ : Except String Device) =
        .error e from h) (by simp)

/-- C7: extraction fails with the `IOError` message
`"No devices found in this database!"` exactly when the device query
returns zero rows; with at least one device row this error cannot be the
outcome (other failures carry different messages). -/
theorem claim7_empty_catalog (db : Database) :
    (db.deviceRows = [] →
      read_device_info db = .error "No devices found in this database!") ∧
    (db.deviceRows ≠ [] →
      read_device_info db ≠ .error "No devices found in this database!") := by
  constructor
  · intro h
    unfold read_device_info
    rw [h]
    rfl
  · intro hne hcontra
    unfold read_device_info at hcontra
    split at hcontra
    · rename_i hlen
      have hperm := List.perm_insertionSort
        (fun a b => deviceRowLE a b = true) db.deviceRows
      have : db.deviceRows.length < 1 := by
        rw [← hperm.length_eq]
        exact hlen
      exact hne (List.eq_nil_of_length_eq_zero (by omega))
    · exact mapM_error_of (buildDevice db (get_dimension_names db.dimensionRows))
        (fun e => e ≠ "No devices found in this database!")
        (buildDevice_error_ne db (get_dimension_names db.dimensionRows))
        _ _ hcontra rfl

/-- Witness for C7: the empty snapshot fails, a one-device snapshot does
not produce the empty-catalog error. -/
theorem claim7_witness :
    read_device_info ⟨[], [], [], []⟩ =
      .error "No devices found in this database!" ∧
    read_device_info ⟨[], [⟨1, 0, 0, 0, "X", 1⟩], [], []⟩ ≠
      .error "No devices found in this database!" :=
  ⟨(claim7_empty_catalog ⟨[], [], [], []⟩).1 rfl,
   (claim7_empty_catalog ⟨[], [⟨1, 0, 0, 0, "X", 1⟩], [], []⟩).2 (by simp)⟩

/-- C8: a device whose peripheral query returns zero rows gets exactly
one synthetic `Peripheral` with id 0 and empty name, classified from the
device's own product-reference key; and every device of a successful
extraction has at least one peripheral. -/
theorem claim8_placeholder_peripheral :
    (∀ (db : Database) (dims : List String) (d : DeviceRow) (dev : Device),
      db.peripheralRows.filter (fun p => p.parentId = d.pk) = [] →
      buildDevice db dims d = .ok dev →
      ∃ u, get_device_unit_conversions dims db.conversionRows d.pk = .ok u ∧
        dev.peripherals = [{ peripheralId := 0, name := "", unit := u }]) ∧
    (∀ (db : Database) (devs : List Device),
      read_device_info db = .ok devs →
      ∀ dev ∈ devs, 1 ≤ dev.peripherals.length) := by
  constructor
  · intro db dims d dev hfilter hbuild
    unfold buildDevice at hbuild
    rw [hfilter] at hbuild
    have hsort : sortPeripheralRows [] = [] := rfl
    rw [hsort] at hbuild
    rw [if_pos (by simp)] at hbuild
    cases hg : get_device_unit_conversions dims db.conversionRows d.pk with
    | error e =>
      rw [hg] at hbuild
      exact absurd (show (Except.error e : Except String Device) =
        .ok dev from hbuild) (by simp)
    | ok u =>
      rw [hg] at hbuild
      have hd := Except.ok.inj (show (Except.ok
        ({ deviceId := d.deviceId, name := d.name,
           peripherals := [{ peripheralId := 0, name := "", unit := u }] } :
          Device) : Except String Device) = .ok dev from hbuild)
      refine ⟨u, rfl, ?_⟩
      rw [← hd]
  · intro db devs hread dev hdev
    unfold read_device_info at hread
    split at hread
    · exact absurd hread (by simp)
    · rcases mapM_ok_mem _ _ _ hread dev hdev with ⟨d, _, hbuild⟩
      unfold buildDevice at hbuild
      split at hbuild
      · cases hg : get_device_unit_conversions
            (get_dimension_names db.dimensionRows) db.conversionRows d.pk with
        | error e =>
          rw [hg] at hbuild
          exact absurd (show (Except.error e : Except String Device) =
            .ok dev from hbuild) (by simp)
        | ok u =>
          rw [hg] at hbuild
          cases (show (Except.ok _ : Except String Device) =
            .ok dev from hbuild)
          simp
      · rename_i hlen
        cases hm : (sortPeripheralRows
            (db.peripheralRows.filter (fun p => p.parentId = d.pk))).mapM
            (buildPeripheral db (get_dimension_names db.dimensionRows)) with
        | error e =>
          rw [hm] at hbuild
          exact absurd (show (Except.error e : Except String Device) =
            .ok dev from hbuild) (by simp)
        | ok ps =>
          rw [hm] at hbuild
          cases (show (Except.ok _ : Except String Device) =
            .ok dev from hbuild)
          have := mapM_ok_length _ _ _ hm
          simp only [Device.peripherals]
          omega

/-- Witness for C8: a snapshot with one device row and no peripheral
rows builds the placeholder peripheral, and the extracted device list
satisfies the nonemptiness bound. -/
theorem claim8_witness :
    (∃ u, get_device_unit_conversions [] ([] : List ConvRow) 1 = .ok u ∧
      Device.peripherals
          ⟨1, "X", [⟨0, "", initUnitConversion⟩]⟩ =
        [{ peripheralId := 0, name := "", unit := u }]) ∧
    1 ≤ (Device.peripherals ⟨1, "X", [⟨0, "", initUnitConversion⟩]⟩).length :=
  ⟨(claim8_placeholder_peripheral).1 ⟨[], [⟨1, 0, 0, 0, "X", 1⟩], [], []⟩ []
      ⟨1, 0, 0, 0, "X", 1⟩ ⟨1, "X", [⟨0, "", initUnitConversion⟩]⟩ rfl rfl,
   (claim8_placeholder_peripheral).2 ⟨[], [⟨1, 0, 0, 0, "X", 1⟩], [], []⟩
      [⟨1, "X", [⟨0, "", initUnitConversion⟩]⟩] rfl
      ⟨1, "X", [⟨0, "", initUnitConversion⟩]⟩ (by simp)⟩

/-- `dedupFirst` output is duplicate-free and avoids the seen set. -/
lemma dedupFirst_nodup : ∀ (l seen : List String),
    (dedupFirst l seen).Nodup ∧ ∀ x ∈ dedupFirst l seen, x ∉ seen
  | [], seen => ⟨List.nodup_nil, by simp [dedupFirst]⟩
  | n :: rest, seen => by
    rcases dedupFirst_nodup rest seen with ⟨hn1, hn2⟩
    rcases dedupFirst_nodup rest (n :: seen) with ⟨hm1, hm2⟩
    by_cases hn : n ∈ seen
    · rw [dedupFirst, if_pos hn]
      exact ⟨hn1, hn2⟩
    · rw [dedupFirst, if_neg hn]
      refine ⟨List.nodup_cons.mpr ⟨?_, hm1⟩, ?_⟩
      · intro hmem
        exact hm2 n hmem (List.mem_cons_self n seen)
      · intro x hx
        rcases List.mem_cons.mp hx with rfl | hx'
        · exact hn
        · intro hxs
          exact hm2 x hx' (List.mem_cons_of_mem n hxs)

/-- Unseen members of the input survive `dedupFirst`. -/
lemma mem_dedupFirst : ∀ (l seen : List String) (x : String),
    x ∈ l → x ∉ seen → x ∈ dedupFirst l seen
  | [], _, x, hx, _ => absurd hx (by simp)
  | n :: rest, seen, x, hx, hs => by
    by_cases hxn : x = n
    · subst hxn
      rw [dedupFirst, if_neg hs]
      exact List.mem_cons_self x _
    · have hx' : x ∈ rest := by
        rcases List.mem_cons.mp hx with h | h
        · exact absurd h hxn
        · exact h
      by_cases hn : n ∈ seen
      · rw [dedupFirst, if_pos hn]
        exact mem_dedupFirst rest seen x hx' hs
      · rw [dedupFirst, if_neg hn]
        refine List.mem_cons_of_mem n (mem_dedupFirst rest (n :: seen) x hx' ?_)
        intro hmem
        rcases List.mem_cons.mp hmem with h | h
        · exact hxn h
        · exact hs h

/-- The names of the emitted entries are the names with a binding,
in emission order. -/
lemma map_fst_filterMap_lookup (M : List (String × Int)) : ∀ (l : List String),
    (l.filterMap (fun n => (dlookup M n).map (fun c => (n, c)))).map Prod.fst =
      l.filter (fun n => (dlookup M n).isSome)
  | [] => rfl
  | n :: t => by
    cases h : dlookup M n with
    | none => simp [h, map_fst_filterMap_lookup M t]
    | some c => simp [h, map_fst_filterMap_lookup M t]

/-- Keys of the dict have bindings. -/
lemma dlookup_isSome_of_mem_keys {α β : Type} [DecidableEq α] :
    ∀ (M : List (α × β)) (n : α), n ∈ M.map Prod.fst →
      (dlookup M n).isSome
  | [], n, h => absurd h (by simp)
  | (k, v) :: t, n, h => by
    by_cases hk : k = n
    · rw [dlookup, if_pos hk]
      rfl
    · rw [dlookup, if_neg hk]
      refine dlookup_isSome_of_mem_keys t n ?_
      rcases List.mem_cons.mp h with h' | h'
      · exact absurd h'.symm hk
      · exact h'

/-- One step of the merge loop with `valuesByName` bound never raises
and acts as the pure transition `mergePairP`. -/
lemma mergeStep_some (M : List (String × Int)) (nBV : List (Int × List String))
    (p : Int × String) :
    mergeStep (some M, nBV) p =
      .ok (some (mergePairP (M, nBV) p).1, (mergePairP (M, nBV) p).2) := by
  cases h : dlookup nBV p.1 with
  | none => simp [mergeStep, mergePairP, h]
  | some aliases =>
    by_cases ha : aliases.any
        (fun oldName => pyLower oldName == pyLower (sanitize p.2)) = true
    · simp [mergeStep, mergePairP, h, ha]
    · simp only [mergeStep, mergePairP, h]
      rw [if_neg ha, if_neg ha]

/-- The whole merge loop with `valuesByName` bound is the pure fold. -/
lemma foldlM_mergeStep : ∀ (T : List (Int × String)) (M : List (String × Int))
    (nBV : List (Int × List String)),
    T.foldlM mergeStep (some M, nBV) =
      .ok (some (T.foldl mergePairP (M, nBV)).1, (T.foldl mergePairP (M, nBV)).2)
  | [], M, nBV => rfl
  | p :: t, M, nBV => by
    rw [List.foldlM_cons, mergeStep_some]
    show t.foldlM mergeStep
      (some (mergePairP (M, nBV) p).1, (mergePairP (M, nBV) p).2) = _
    rw [foldlM_mergeStep t (mergePairP (M, nBV) p).1 (mergePairP (M, nBV) p).2]
    rw [List.foldl_cons]

/-- With a prior file, `write_binary_enum_file` succeeds and renders the
fully merged dict. -/
lemma write_some_eq (aCodeTable : List (Int × String))
    (aEnumName aBaseType priorContent : String) :
    write_binary_enum_file aCodeTable aEnumName aBaseType (some priorContent) =
      .ok (renderFile aEnumName aBaseType
        (mergedValues priorContent aCodeTable)) := by
  unfold write_binary_enum_file mergedValues
  dsimp only
  rw [foldlM_mergeStep]
  rfl

/-- C6: in every listing the merger finalizes, each registry name is
emitted in exactly one entry, and the entry carries the dict's (last
assigned) code for that name; the emitted names are duplicate-free even
though codes may repeat.  The fourth conjunct ties the emitted entries to
the file `write_binary_enum_file` actually writes. -/
theorem claim6_unique_names (priorContent : String)
    (aCodeTable : List (Int × String)) (aEnumName aBaseType : String) :
    ((finalEntries (mergedValues priorContent aCodeTable)).map Prod.fst).Nodup ∧
    (∀ n, n ∈ (mergedValues priorContent aCodeTable).map Prod.fst →
      ((finalEntries (mergedValues priorContent aCodeTable)).map
        Prod.fst).count n = 1) ∧
    (∀ n c, (n, c) ∈ finalEntries (mergedValues priorContent aCodeTable) →
      dlookup (mergedValues priorContent aCodeTable) n = some c) ∧
    write_binary_enum_file aCodeTable aEnumName aBaseType (some priorContent) =
      .ok (renderFile aEnumName aBaseType
        (mergedValues priorContent aCodeTable)) := by
  have hmap := map_fst_filterMap_lookup (mergedValues priorContent aCodeTable)
    (dedupFirst (sortedNames (mergedValues priorContent aCodeTable)) [])
  have hdedup := dedupFirst_nodup
    (sortedNames (mergedValues priorContent aCodeTable)) []
  have hnodup : ((finalEntries (mergedValues priorContent aCodeTable)).map
      Prod.fst).Nodup := by
    rw [finalEntries, hmap]
    exact hdedup.1.filter _
  refine ⟨hnodup, ?_, ?_, write_some_eq _ _ _ _⟩
  · intro n hn
    have hsome := dlookup_isSome_of_mem_keys _ n hn
    have hsorted : n ∈ sortedNames (mergedValues priorContent aCodeTable) :=
      ((List.perm_insertionSort _ _).mem_iff).mpr hn
    have hmem : n ∈ (finalEntries (mergedValues priorContent aCodeTable)).map
        Prod.fst := by
      rw [finalEntries, hmap]
      exact List.mem_filter.mpr
        ⟨mem_dedupFirst _ [] n hsorted (by simp), hsome⟩
    exact List.count_eq_one_of_mem hnodup hmem
  · intro n c hmem
    rcases List.mem_filterMap.mp hmem with ⟨n', _, hopt⟩
    rcases Option.map_eq_some'.mp hopt with ⟨c', hc', heq⟩
    cases heq
    exact hc'

/-- Witness for C6 at a concrete merged listing. -/
theorem claim6_witness :
    ((finalEntries (mergedValues "" [(1, "b"), (2, "a")])).map
      Prod.fst).count "a" = 1 ∧
    write_binary_enum_file [(1, "b"), (2, "a")] "E" "u" (some "") =
      .ok (renderFile "E" "u" (mergedValues "" [(1, "b"), (2, "a")])) :=
  ⟨(claim6_unique_names "" [(1, "b"), (2, "a")] "E" "u").2.1 "a" (by decide),
   (claim6_unique_names "" [(1, "b"), (2, "a")] "E" "u").2.2.2⟩

/-! ### Dictionary lemmas for the merge proof -/

lemma dlookup_dset_self {α β : Type} [DecidableEq α] :
    ∀ (d : List (α × β)) (k : α) (v : β), dlookup (dset d k v) k = some v
  | [], k, v => by simp [dset, dlookup]
  | (k', v') :: t, k, v => by
    by_cases h : k' = k
    · simp [dset, dlookup, h]
    · simp only [dset, if_neg h, dlookup]
      exact dlookup_dset_self t k v

lemma dlookup_dset_ne {α β : Type} [DecidableEq α] :
    ∀ (d : List (α × β)) (k a : α) (v : β), k ≠ a →
      dlookup (dset d k v) a = dlookup d a
  | [], k, a, v, h => by simp [dset, dlookup, if_neg h]
  | (k', v') :: t, k, a, v, h => by
    by_cases hk : k' = k
    · subst hk
      simp only [dset, if_pos rfl, dlookup, if_neg h]
    · simp only [dset, if_neg hk, dlookup]
      by_cases ha : k' = a
      · rw [if_pos ha, if_pos ha]
      · rw [if_neg ha, if_neg ha]
        exact dlookup_dset_ne t k a v h

lemma keys_dset_nodup {α β : Type} [DecidableEq α] :
    ∀ (d : List (α × β)) (k : α) (v : β), (d.map Prod.fst).Nodup →
      ((dset d k v).map Prod.fst).Nodup
  | [], k, v, _ => by simp [dset]
  | (k', v') :: t, k, v, h => by
    rcases List.nodup_cons.mp h with ⟨hk', ht⟩
    by_cases hk : k' = k
    · subst hk
      simp only [dset, if_pos rfl, List.map_cons]
      exact List.nodup_cons.mpr ⟨hk', ht⟩
    · simp only [dset, if_neg hk, List.map_cons]
      refine List.nodup_cons.mpr ⟨?_, keys_dset_nodup t k v ht⟩
      intro hmem
      rcases (mem_keys_dset t k v k').mp hmem with h' | h'
      · exact hk h'
      · exact hk' h'

lemma mem_dset_sub {α β : Type} [DecidableEq α] :
    ∀ (d : List (α × β)) (k : α) (v : β) (x : α × β), x ∈ dset d k v →
      x = (k, v) ∨ x ∈ d
  | [], k, v, x, h => by simpa [dset] using h
  | (k', v') :: t, k, v, x, h => by
    by_cases hk : k' = k
    · rw [dset, if_pos hk] at h
      rcases List.mem_cons.mp h with h' | h'
      · exact Or.inl h'
      · exact Or.inr (List.mem_cons_of_mem _ h')
    · rw [dset, if_neg hk] at h
      rcases List.mem_cons.mp h with h' | h'
      · exact Or.inr (h' ▸ List.mem_cons_self _ _)
      · rcases mem_dset_sub t k v x h' with h'' | h''
        · exact Or.inl h''
        · exact Or.inr (List.mem_cons_of_mem _ h'')

lemma dlookup_eq_some_of_mem {α β : Type} [DecidableEq α] :
    ∀ (d : List (α × β)) (k : α) (v : β), (d.map Prod.fst).Nodup →
      (k, v) ∈ d → dlookup d k = some v
  | [], k, v, _, h => absurd h (by simp)
  | (k', v') :: t, k, v, hnd, h => by
    rcases List.nodup_cons.mp hnd with ⟨hk', ht⟩
    rcases List.mem_cons.mp h with h' | h'
    · cases h'
      simp [dlookup]
    · have hkne : k' ≠ k := by
        intro he
        subst he
        exact hk' (List.mem_map.mpr ⟨(k', v), h', rfl⟩)
      rw [dlookup, if_neg hkne]
      exact dlookup_eq_some_of_mem t k v ht h'

lemma mem_of_dlookup_eq_some {α β : Type} [DecidableEq α] :
    ∀ (d : List (α × β)) (k : α) (v : β), dlookup d k = some v → (k, v) ∈ d
  | [], k, v, h => by simp [dlookup] at h
  | (k', v') :: t, k, v, h => by
    by_cases hk : k' = k
    · rw [dlookup, if_pos hk] at h
      cases h
      exact hk ▸ List.mem_cons_self _ _
    · rw [dlookup, if_neg hk] at h
      exact List.mem_cons_of_mem _ (mem_of_dlookup_eq_some t k v h)

/-- Keys not named by any row keep their initial binding through the
`dset`-fold of the dimension dict. -/
lemma dlookup_dictfold_not_mem (rows : List (Nat × String)) :
    ∀ (init : List (Nat × String)) (k : Nat), k ∉ rows.map Prod.fst →
    dlookup (rows.foldl (fun d r => dset d r.1 r.2) init) k = dlookup init k := by
  induction rows with
  | nil => intro init k _; rfl
  | cons r t ih =>
    intro init k h
    rw [List.foldl_cons, ih _ k (fun hm => h (List.mem_cons_of_mem _ hm)),
      dlookup_dset_ne]
    intro he
    exact h (by simp [he])

/-- The `dset`-fold keeps the dict's keys duplicate-free. -/
lemma keys_dictfold_nodup (rows : List (Nat × String)) :
    ∀ (init : List (Nat × String)), (init.map Prod.fst).Nodup →
    ((rows.foldl (fun d r => dset d r.1 r.2) init).map Prod.fst).Nodup := by
  induction rows with
  | nil => intro init h; exact h
  | cons r t ih =>
    intro init h
    rw [List.foldl_cons]
    exact ih _ (keys_dset_nodup init r.1 r.2 h)

/-- An in-range entry of a duplicate-free dict lands at its own index
after the `result[key] = value` loop. -/
lemma foldl_set_getElem (d : List (Nat × String)) :
    ∀ (init : List String) (k : Nat) (v : String), (k, v) ∈ d →
    (d.map Prod.fst).Nodup → k < init.length →
    (d.foldl (fun res kv => res.set kv.1 kv.2) init)[k]? = some v := by
  induction d with
  | nil => intro init k v hmem _ _; exact absurd hmem (by simp)
  | cons a t ih =>
    intro init k v hmem hnd hk
    rw [List.foldl_cons]
    rcases List.nodup_cons.mp hnd with ⟨hhead, htail⟩
    rcases List.mem_cons.mp hmem with rfl | hmem'
    · rw [foldl_set_of_not_mem t _ k (by simpa using hhead)]
      exact List.getElem?_set_self hk
    · exact ih (init.set a.1 a.2) k v hmem' htail (by simpa using hk)

/-- C9 (amended): the generated dimension table has length
`maxIndex + 1`; index 0 holds `"none"` whenever no dimension row itself
carries id 0; identifiers within range always resolve (to `"unknown"`
when the identifier is neither 0 nor an id of the table rows), but an
identifier at or beyond `maxIndex + 1` makes the classifier raise
`IndexError` instead of resolving. -/
theorem claim9_amended (dimRows : List (Nat × String)) (row : ConvRow)
    (st : UnitConversion) :
    (get_dimension_names dimRows).length =
      dimRows.foldl (fun m r => max m r.1) 0 + 1 ∧
    ((0 : Nat) ∉ dimRows.map Prod.fst →
      (get_dimension_names dimRows)[(0 : Nat)]? = some "none") ∧
    (row.dimensionId < (get_dimension_names dimRows).length →
      ∃ dn, (get_dimension_names dimRows)[row.dimensionId]? = some dn ∧
        (row.dimensionId ∉ dimRows.map Prod.fst → row.dimensionId ≠ 0 →
          dn = "unknown")) ∧
    ((get_dimension_names dimRows).length ≤ row.dimensionId →
      processRow (get_dimension_names dimRows) st row =
        .error "list index out of range") := by
  have hlen : (get_dimension_names dimRows).length =
      dimRows.foldl (fun m r => max m r.1) 0 + 1 := by
    unfold get_dimension_names
    rw [length_foldl_set, List.length_replicate]
  refine ⟨hlen, ?_, ?_, ?_⟩
  · intro hz
    have hlook : dlookup (dimRows.foldl (fun d r => dset d r.1 r.2)
        [((0 : Nat), "none")]) 0 = some "none" :=
      dlookup_dictfold_not_mem dimRows [((0 : Nat), "none")] 0 hz
    have hmem : ((0 : Nat), "none") ∈ dimRows.foldl (fun d r => dset d r.1 r.2)
        [((0 : Nat), "none")] :=
      mem_of_dlookup_eq_some _ 0 "none" hlook
    have hnd : ((dimRows.foldl (fun d r => dset d r.1 r.2)
        [((0 : Nat), "none")]).map Prod.fst).Nodup :=
      keys_dictfold_nodup dimRows [((0 : Nat), "none")] (by simp)
    unfold get_dimension_names
    exact foldl_set_getElem _ _ 0 "none" hmem hnd (by simp)
  · intro hlt
    refine ⟨(get_dimension_names dimRows)[row.dimensionId],
      List.getElem?_eq_getElem hlt, ?_⟩
    intro hnot hzero
    have hlt' : row.dimensionId < dimRows.foldl (fun m r => max m r.1) 0 + 1 := by
      rw [hlen] at hlt
      exact hlt
    have hgap : (get_dimension_names dimRows)[row.dimensionId]? =
        some "unknown" := by
      unfold get_dimension_names
      rw [foldl_set_of_not_mem]
      · rw [List.getElem?_replicate, if_pos hlt']
      · intro hmem
        rcases keys_dictfold_sub dimRows [(0, "none")] row.dimensionId hmem
          with h0 | hr
        · simp at h0
          exact hzero h0
        · exact hnot hr
    rw [List.getElem?_eq_getElem hlt] at hgap
    exact Option.some.inj hgap
  · intro hge
    have hnone : (get_dimension_names dimRows)[row.dimensionId]? = none :=
      List.getElem?_eq_none hge
    rw [processRow, hnone]

/-- Witness for C9 (amended): with dimension rows `[(2, "length")]`,
identifier 0 resolves to `"none"`, identifier 1 is a gap resolving to
`"unknown"`, and identifier 3 is out of range and raises. -/
theorem claim9_witness :
    (get_dimension_names [(2, "length")])[(0 : Nat)]? = some "none" ∧
    (∃ dn, (get_dimension_names [(2, "length")])[(1 : Nat)]? = some dn ∧
      ((1 : Nat) ∉ [((2 : Nat), "length")].map Prod.fst → (1 : Nat) ≠ 0 →
        dn = "unknown")) ∧
    processRow (get_dimension_names [(2, "length")]) initUnitConversion
        ⟨1, 3, 1, "linear"⟩ = .error "list index out of range" :=
  ⟨(claim9_amended [(2, "length")] ⟨1, 0, 1, "linear"⟩
      initUnitConversion).2.1 (by decide),
   (claim9_amended [(2, "length")] ⟨1, 1, 1, "linear"⟩
      initUnitConversion).2.2.1 (by decide),
   (claim9_amended [(2, "length")] ⟨1, 3, 1, "linear"⟩
      initUnitConversion).2.2.2 (by decide)⟩

lemma dlookup_eq_none_iff {α β : Type} [DecidableEq α] (d : List (α × β))
    (k : α) : dlookup d k = none ↔ k ∉ d.map Prod.fst := by
  constructor
  · intro h hmem
    have := dlookup_isSome_of_mem_keys d k hmem
    rw [h] at this
    exact absurd this (by simp)
  · intro h
    cases hl : dlookup d k with
    | none => rfl
    | some v => exact absurd (List.mem_map.mpr ⟨(k, v),
        mem_of_dlookup_eq_some d k v hl, rfl⟩) h

lemma dset_fresh {α β : Type} [DecidableEq α] :
    ∀ (d : List (α × β)) (k : α) (v : β), k ∉ d.map Prod.fst →
      dset d k v = d ++ [(k, v)]
  | [], k, v, _ => rfl
  | (k', v') :: t, k, v, h => by
    have hk : k' ≠ k := fun he => h (by simp [he])
    rw [dset, if_neg hk, dset_fresh t k v (fun hm => h (by simp [hm]))]
    rfl

/-- `dict(pairs)` keeps a duplicate-free pair list unchanged. -/
lemma dictOf_self {α β : Type} [DecidableEq α] (l : List (α × β))
    (h : (l.map Prod.fst).Nodup) : dictOf l = l := by
  suffices haux : ∀ (l acc : List (α × β)), (l.map Prod.fst).Nodup →
      (∀ k, k ∈ l.map Prod.fst → k ∉ acc.map Prod.fst) →
      l.foldl (fun d e => dset d e.1 e.2) acc = acc ++ l by
    have := haux l [] h (by simp)
    simpa [dictOf] using this
  intro l
  induction l with
  | nil => intro acc _ _; simp
  | cons e t ih =>
    intro acc hnd hdisj
    rcases List.nodup_cons.mp hnd with ⟨he, ht⟩
    rw [List.foldl_cons, dset_fresh acc e.1 e.2
      (hdisj e.1 (by simp)), ih (acc ++ [(e.1, e.2)]) ht ?_]
    · simp
    · intro k hk
      rw [List.map_append, List.mem_append]
      rintro (h' | h')
      · exact hdisj k (List.mem_cons_of_mem _ hk) h'
      · simp at h'
        subst h'
        exact he hk

/-- Keys of `dictOf l` are the keys of `l`, without duplicates. -/
lemma dictOf_keys_nodup {α β : Type} [DecidableEq α] (l : List (α × β)) :
    ((dictOf l).map Prod.fst).Nodup := by
  suffices haux : ∀ (l acc : List (α × β)), (acc.map Prod.fst).Nodup →
      ((l.foldl (fun d e => dset d e.1 e.2) acc).map Prod.fst).Nodup by
    exact haux l [] (by simp)
  intro l
  induction l with
  | nil => intro acc h; exact h
  | cons e t ih =>
    intro acc h
    rw [List.foldl_cons]
    exact ih (dset acc e.1 e.2) (keys_dset_nodup acc e.1 e.2 h)

/-- Entries of `dictOf l` come from `l`. -/
lemma mem_dictOf_sub {α β : Type} [DecidableEq α] (l : List (α × β))
    (x : α × β) (h : x ∈ dictOf l) : x ∈ l := by
  suffices haux : ∀ (l acc : List (α × β)) (x : α × β),
      x ∈ l.foldl (fun d e => dset d e.1 e.2) acc → x ∈ acc ∨ x ∈ l by
    rcases haux l [] x h with h' | h'
    · exact absurd h' (by simp)
    · exact h'
  intro l
  induction l with
  | nil => intro acc x h; exact Or.inl h
  | cons e t ih =>
    intro acc x h
    rw [List.foldl_cons] at h
    rcases ih (dset acc e.1 e.2) x h with h' | h'
    · rcases mem_dset_sub acc e.1 e.2 x h' with h'' | h''
      · exact Or.inr (h'' ▸ List.mem_cons_self _ _)
      · exact Or.inl h''
    · exact Or.inr (List.mem_cons_of_mem _ h')

/-! ### Alias-map lemmas -/

lemma dlookup_append_some {α β : Type} [DecidableEq α] :
    ∀ (d d' : List (α × β)) (a : α) (v : β), dlookup d a = some v →
      dlookup (d ++ d') a = some v
  | [], _, a, v, h => by simp [dlookup] at h
  | (k, w) :: t, d', a, v, h => by
    by_cases hk : k = a
    · rw [dlookup, if_pos hk] at h
      rw [List.cons_append, dlookup, if_pos hk]
      exact h
    · rw [dlookup, if_neg hk] at h
      rw [List.cons_append, dlookup, if_neg hk]
      exact dlookup_append_some t d' a v h

lemma dlookup_append_none {α β : Type} [DecidableEq α] :
    ∀ (d d' : List (α × β)) (a : α), dlookup d a = none →
      dlookup (d ++ d') a = dlookup d' a
  | [], _, a, _ => by simp
  | (k, w) :: t, d', a, h => by
    by_cases hk : k = a
    · rw [dlookup, if_pos hk] at h
      exact absurd h (by simp)
    · rw [dlookup, if_neg hk] at h
      rw [List.cons_append, dlookup, if_neg hk]
      exact dlookup_append_none t d' a h

lemma dlookup_appendAlias (d : List (Int × List String)) (c : Int)
    (n : String) (c' : Int) :
    dlookup (appendAlias d c n) c' =
      if c' = c then some (aliasesOf d c ++ [n]) else dlookup d c' := by
  unfold appendAlias aliasesOf
  cases h : dlookup d c with
  | none =>
    by_cases hc : c' = c
    · subst hc
      rw [dlookup_append_none d [(c', [n])] c' h, if_pos rfl]
      simp [dlookup]
    · rw [if_neg hc]
      cases h' : dlookup d c' with
      | none => rw [dlookup_append_none d [(c, [n])] c' h', dlookup,
          if_neg (fun he => hc he.symm)]; rfl
      | some l => exact dlookup_append_some d [(c, [n])] c' l h'
  | some l =>
    by_cases hc : c' = c
    · subst hc
      rw [dlookup_dset_self, if_pos rfl]
      rfl
    · rw [dlookup_dset_ne d c c' (l ++ [n]) (fun he => hc he.symm), if_neg hc]

lemma aliasesOf_appendAlias (d : List (Int × List String)) (c : Int)
    (n : String) (c' : Int) :
    aliasesOf (appendAlias d c n) c' =
      if c' = c then aliasesOf d c ++ [n] else aliasesOf d c' := by
  unfold aliasesOf
  rw [dlookup_appendAlias]
  by_cases hc : c' = c
  · rw [if_pos hc, if_pos hc]
    rfl
  · rw [if_neg hc, if_neg hc]

lemma mem_aliases_buildNBV (M : List (String × Int)) (o : String) (c : Int) :
    o ∈ aliasesOf (buildNamesByValue M) c ↔ (o, c) ∈ M := by
  suffices haux : ∀ (l : List (String × Int)) (acc : List (Int × List String))
      (o : String) (c : Int),
      o ∈ aliasesOf (l.foldl (fun d e => appendAlias d e.2 e.1) acc) c ↔
        o ∈ aliasesOf acc c ∨ (o, c) ∈ l by
    rw [buildNamesByValue, haux M [] o c]
    simp [aliasesOf, dlookup]
  intro l
  induction l with
  | nil => intro acc o c; simp
  | cons e t ih =>
    intro acc o c
    rw [List.foldl_cons, ih, aliasesOf_appendAlias]
    by_cases hc : c = e.2
    · rw [if_pos hc]
      subst hc
      simp only [List.mem_append, List.mem_cons, List.not_mem_nil, or_false]
      constructor
      · rintro ((h | h) | h)
        · exact Or.inl h
        · subst h
          exact Or.inr (Or.inl Prod.mk.eta)
        · exact Or.inr (Or.inr h)
      · rintro (h | (h | h))
        · exact Or.inl (Or.inl h)
        · exact Or.inl (Or.inr (congrArg Prod.fst h))
        · exact Or.inr h
    · rw [if_neg hc]
      simp only [List.mem_cons]
      constructor
      · rintro (h | h)
        · exact Or.inl h
        · exact Or.inr (Or.inr h)
      · rintro (h | (h | h))
        · exact Or.inl h
        · exact absurd (congrArg Prod.snd h) hc
        · exact Or.inr h

lemma dlookup_of_mem_aliases (d : List (Int × List String)) (c : Int)
    (o : String) (h : o ∈ aliasesOf d c) :
    dlookup d c = some (aliasesOf d c) := by
  unfold aliasesOf at h ⊢
  cases hl : dlookup d c with
  | none => rw [hl] at h; exact absurd h (by simp)
  | some l => rfl

/-! ### Well-formedness of parsed and merged entries -/

lemma parseLineC_wf (l : List Char) (n : String) (c : Int)
    (h : parseLineC l = some (n, c)) : WfName n ∧ 0 ≤ c := by
  unfold parseLineC at h
  split_ifs at h with h1 h2 h3
  split at h
  · exact absurd h (by simp)
  · rename_i c0 r4
    split_ifs at h with h4 h5
    split at h
    · exact absurd h (by simp)
    · rename_i c2 r5
      split_ifs at h with h6
      cases h
      refine ⟨⟨?_, ?_⟩, Int.natCast_nonneg _⟩
      · intro he
        refine h2 ?_
        rw [show List.takeWhile (fun c => !isWS c)
          (List.dropWhile isWS l) = [] from he]
        rfl
      · intro ch hch
        have := List.mem_takeWhile_imp hch
        simpa using this

lemma read_binary_enum_file_wf (content : String) (n : String) (c : Int)
    (h : (n, c) ∈ read_binary_enum_file content) : WfName n ∧ 0 ≤ c := by
  unfold read_binary_enum_file at h
  rcases List.mem_filterMap.mp h with ⟨line, _, hp⟩
  exact parseLineC_wf line n c hp

/-- The merge transition when the code is new (lines 497-503). -/
lemma mergePairP_none (st : List (String × Int) × List (Int × List String))
    (p : Int × String) (hA : dlookup st.2 p.1 = none) :
    mergePairP st p =
      (dset st.1 (sanitize p.2) p.1, appendAlias st.2 p.1 (sanitize p.2)) := by
  unfold mergePairP
  rw [hA]

/-- The merge transition when an existing alias matches
case-insensitively (lines 507-512): the pair is discarded. -/
lemma mergePairP_discard (st : List (String × Int) × List (Int × List String))
    (p : Int × String) (aliases : List String)
    (hA : dlookup st.2 p.1 = some aliases)
    (hm : aliases.any (fun oldName =>
      pyLower oldName == pyLower (sanitize p.2)) = true) :
    mergePairP st p = st := by
  unfold mergePairP
  rw [hA]
  simp [hm]

/-- The merge transition appending a genuinely new alias
(lines 513-517). -/
lemma mergePairP_add (st : List (String × Int) × List (Int × List String))
    (p : Int × String) (aliases : List String)
    (hA : dlookup st.2 p.1 = some aliases)
    (hm : aliases.any (fun oldName =>
      pyLower oldName == pyLower (sanitize p.2)) = false) :
    mergePairP st p =
      (dset st.1 (sanitize p.2) p.1, appendAlias st.2 p.1 (sanitize p.2)) := by
  unfold mergePairP
  rw [hA]
  simp [hm]

lemma mergePairP_fst_sub
    (st : List (String × Int) × List (Int × List String))
    (p : Int × String) (x : String × Int) (h : x ∈ (mergePairP st p).1) :
    x = (sanitize p.2, p.1) ∨ x ∈ st.1 := by
  cases hA : dlookup st.2 p.1 with
  | none =>
    rw [mergePairP_none st p hA] at h
    exact mem_dset_sub st.1 (sanitize p.2) p.1 x h
  | some aliases =>
    cases hm : aliases.any (fun oldName =>
      pyLower oldName == pyLower (sanitize p.2)) with
    | true =>
      rw [mergePairP_discard st p aliases hA hm] at h
      exact Or.inr h
    | false =>
      rw [mergePairP_add st p aliases hA hm] at h
      exact mem_dset_sub st.1 (sanitize p.2) p.1 x h

lemma mergePairP_keys_nodup
    (st : List (String × Int) × List (Int × List String))
    (p : Int × String) (h : (st.1.map Prod.fst).Nodup) :
    (((mergePairP st p).1.map Prod.fst)).Nodup := by
  cases hA : dlookup st.2 p.1 with
  | none =>
    rw [mergePairP_none st p hA]
    exact keys_dset_nodup st.1 _ _ h
  | some aliases =>
    cases hm : aliases.any (fun oldName =>
      pyLower oldName == pyLower (sanitize p.2)) with
    | true => rw [mergePairP_discard st p aliases hA hm]; exact h
    | false =>
      rw [mergePairP_add st p aliases hA hm]
      exact keys_dset_nodup st.1 _ _ h

lemma merged_fold_wf (T : List (Int × String))
    (hwf : ∀ p ∈ T, WfName (sanitize p.2) ∧ 0 ≤ p.1) :
    ∀ (st : List (String × Int) × List (Int × List String)),
    (∀ x ∈ st.1, WfName x.1 ∧ 0 ≤ x.2) →
    ∀ x ∈ (T.foldl mergePairP st).1, WfName x.1 ∧ 0 ≤ x.2 := by
  induction T with
  | nil => intro st hst x hx; exact hst x hx
  | cons p t ih =>
    intro st hst x hx
    rw [List.foldl_cons] at hx
    refine ih (fun q hq => hwf q (List.mem_cons_of_mem _ hq))
      (mergePairP st p) ?_ x hx
    intro y hy
    rcases mergePairP_fst_sub st p y hy with h | h
    · subst h
      exact ⟨(hwf p (List.mem_cons_self _ _)).1, (hwf p (List.mem_cons_self _ _)).2⟩
    · exact hst y h

lemma mergedValues_wf (priorContent : String) (T : List (Int × String))
    (hwf : ∀ p ∈ T, WfName (sanitize p.2) ∧ 0 ≤ p.1) :
    ∀ x ∈ mergedValues priorContent T, WfName x.1 ∧ 0 ≤ x.2 := by
  intro x hx
  refine merged_fold_wf T hwf _ ?_ x hx
  intro y hy
  have := mem_dictOf_sub _ y hy
  exact read_binary_enum_file_wf priorContent y.1 y.2 (by
    simpa using this)

lemma merged_fold_keys_nodup (T : List (Int × String)) :
    ∀ (st : List (String × Int) × List (Int × List String)),
    (st.1.map Prod.fst).Nodup → ((T.foldl mergePairP st).1.map Prod.fst).Nodup := by
  induction T with
  | nil => intro st h; exact h
  | cons p t ih =>
    intro st h
    rw [List.foldl_cons]
    exact ih (mergePairP st p) (mergePairP_keys_nodup st p h)

lemma mergedValues_keys_nodup (priorContent : String)
    (T : List (Int × String)) :
    ((mergedValues priorContent T).map Prod.fst).Nodup := by
  refine merged_fold_keys_nodup T _ ?_
  exact dictOf_keys_nodup _

/-! ### The merge-incorporation invariant -/

lemma aliasSound_mono (P P' : List (Int × String))
    (st : List (String × Int) × List (Int × List String))
    (hsub : ∀ q ∈ P, q ∈ P') (h : AliasSound P st) : AliasSound P' st := by
  intro c al hal o ho
  rcases h c al hal o ho with h' | ⟨q, hq, hql⟩
  · exact Or.inl h'
  · exact Or.inr ⟨q, hsub q hq, hql⟩

lemma incorporated_insert (T : List (Int × String))
    (hT : ∀ p ∈ T, ∀ q ∈ T,
      pyLower (sanitize p.2) = pyLower (sanitize q.2) → p.1 = q.1)
    (pre : List (Int × String)) (hpre : ∀ q ∈ pre, q ∈ T)
    (p : Int × String) (hp : p ∈ T)
    (M : List (String × Int)) (h3 : Incorporated pre M) :
    Incorporated (pre ++ [p]) (dset M (sanitize p.2) p.1) := by
  intro q hq
  rcases List.mem_append.mp hq with hq' | hq'
  · rcases h3 q hq' with ⟨o, ho, holow⟩
    by_cases hon : o = sanitize p.2
    · subst hon
      have hcode : q.1 = p.1 := hT q (hpre q hq') p hp holow.symm
      refine ⟨sanitize p.2, ?_, holow⟩
      rw [dlookup_dset_self, hcode]
    · refine ⟨o, ?_, holow⟩
      rw [dlookup_dset_ne M (sanitize p.2) o p.1 (fun he => hon he.symm)]
      exact ho
  · have : q = p := by simpa using hq'
    subst this
    exact ⟨sanitize q.2, dlookup_dset_self M _ _, rfl⟩

lemma aliasSound_insert (pre : List (Int × String)) (p : Int × String)
    (st : List (String × Int) × List (Int × List String))
    (h2 : AliasSound pre st) :
    AliasSound (pre ++ [p])
      (dset st.1 (sanitize p.2) p.1, appendAlias st.2 p.1 (sanitize p.2)) := by
  intro c al hal o ho
  rw [show (dset st.1 (sanitize p.2) p.1,
    appendAlias st.2 p.1 (sanitize p.2)).2 =
      appendAlias st.2 p.1 (sanitize p.2) from rfl,
    dlookup_appendAlias] at hal
  by_cases hc : c = p.1
  · rw [if_pos hc] at hal
    cases hal
    rcases List.mem_append.mp ho with ho' | ho'
    · rcases h2 p.1 (aliasesOf st.2 p.1)
        (dlookup_of_mem_aliases st.2 p.1 o ho') o ho' with h | ⟨q, hq, hql⟩
      · by_cases hon : o = sanitize p.2
        · subst hon
          exact Or.inr ⟨p, List.mem_append_right _ (by simp), rfl⟩
        · left
          rw [show (dset st.1 (sanitize p.2) p.1,
            appendAlias st.2 p.1 (sanitize p.2)).1 =
              dset st.1 (sanitize p.2) p.1 from rfl,
            dlookup_dset_ne st.1 (sanitize p.2) o p.1
              (fun he => hon he.symm), hc]
          exact h
      · exact Or.inr ⟨q, List.mem_append_left _ hq, hql⟩
    · have hoe : o = sanitize p.2 := by simpa using ho'
      subst hoe
      left
      rw [show (dset st.1 (sanitize p.2) p.1,
        appendAlias st.2 p.1 (sanitize p.2)).1 =
          dset st.1 (sanitize p.2) p.1 from rfl, dlookup_dset_self, hc]
  · rw [if_neg hc] at hal
    rcases h2 c al hal o ho with h | ⟨q, hq, hql⟩
    · by_cases hon : o = sanitize p.2
      · subst hon
        exact Or.inr ⟨p, List.mem_append_right _ (by simp), rfl⟩
      · left
        rw [show (dset st.1 (sanitize p.2) p.1,
          appendAlias st.2 p.1 (sanitize p.2)).1 =
            dset st.1 (sanitize p.2) p.1 from rfl,
          dlookup_dset_ne st.1 (sanitize p.2) o p.1 (fun he => hon he.symm)]
        exact h
    · exact Or.inr ⟨q, List.mem_append_left _ hq, hql⟩

lemma merge_inv_step (T : List (Int × String))
    (hT : ∀ p ∈ T, ∀ q ∈ T,
      pyLower (sanitize p.2) = pyLower (sanitize q.2) → p.1 = q.1)
    (pre : List (Int × String)) (p : Int × String)
    (hpre : ∀ q ∈ pre, q ∈ T) (hp : p ∈ T)
    (st : List (String × Int) × List (Int × List String))
    (h1 : (st.1.map Prod.fst).Nodup) (h2 : AliasSound pre st)
    (h3 : Incorporated pre st.1) :
    ((mergePairP st p).1.map Prod.fst).Nodup ∧
    AliasSound (pre ++ [p]) (mergePairP st p) ∧
    Incorporated (pre ++ [p]) (mergePairP st p).1 := by
  refine ⟨mergePairP_keys_nodup st p h1, ?_, ?_⟩
  · cases hA : dlookup st.2 p.1 with
    | none =>
      rw [mergePairP_none st p hA]
      exact aliasSound_insert pre p st h2
    | some aliases =>
      cases hm : aliases.any (fun oldName =>
        pyLower oldName == pyLower (sanitize p.2)) with
      | true =>
        rw [mergePairP_discard st p aliases hA hm]
        exact aliasSound_mono pre (pre ++ [p]) st
          (fun q hq => List.mem_append_left _ hq) h2
      | false =>
        rw [mergePairP_add st p aliases hA hm]
        exact aliasSound_insert pre p st h2
  · cases hA : dlookup st.2 p.1 with
    | none =>
      rw [mergePairP_none st p hA]
      exact incorporated_insert T hT pre hpre p hp st.1 h3
    | some aliases =>
      cases hm : aliases.any (fun oldName =>
        pyLower oldName == pyLower (sanitize p.2)) with
      | true =>
        rw [mergePairP_discard st p aliases hA hm]
        intro q hq
        rcases List.mem_append.mp hq with hq' | hq'
        · exact h3 q hq'
        · have hqp : q = p := by simpa using hq'
          subst hqp
          rcases List.any_eq_true.mp hm with ⟨o, ho, hbeq⟩
          have hol : pyLower o = pyLower (sanitize q.2) := eq_of_beq hbeq
          rcases h2 q.1 aliases hA o ho with h | ⟨r, hr, hrl⟩
          · exact ⟨o, h, hol⟩
          · have hrq : r.1 = q.1 := hT r (hpre r hr) q hp (hrl.trans hol)
            rcases h3 r hr with ⟨o2, ho2, ho2l⟩
            refine ⟨o2, ?_, ho2l.trans (hrl.trans hol)⟩
            rw [ho2, hrq]
      | false =>
        rw [mergePairP_add st p aliases hA hm]
        exact incorporated_insert T hT pre hpre p hp st.1 h3

lemma merge_inv_fold (T : List (Int × String))
    (hT : ∀ p ∈ T, ∀ q ∈ T,
      pyLower (sanitize p.2) = pyLower (sanitize q.2) → p.1 = q.1) :
    ∀ (suf pre : List (Int × String))
      (st : List (String × Int) × List (Int × List String)),
    pre ++ suf = T → (st.1.map Prod.fst).Nodup → AliasSound pre st →
    Incorporated pre st.1 →
    Incorporated T (suf.foldl mergePairP st).1
  | [], pre, st, hps, _, _, h3 => by
    subst hps
    rw [List.foldl_nil]
    intro q hq
    exact h3 q (by simpa using hq)
  | p :: rest, pre, st, hps, h1, h2, h3 => by
    rw [List.foldl_cons]
    have hp : p ∈ T := by rw [← hps]; simp
    have hpre : ∀ q ∈ pre, q ∈ T := by
      intro q hq
      rw [← hps]
      exact List.mem_append_left _ hq
    obtain ⟨n1, n2, n3⟩ := merge_inv_step T hT pre p hpre hp st h1 h2 h3
    refine merge_inv_fold T hT rest (pre ++ [p]) (mergePairP st p) ?_ n1 n2 n3
    rw [List.append_assoc]
    simpa using hps

lemma mergedValues_incorporated (priorContent : String)
    (T : List (Int × String))
    (hT : ∀ p ∈ T, ∀ q ∈ T,
      pyLower (sanitize p.2) = pyLower (sanitize q.2) → p.1 = q.1) :
    Incorporated T (mergedValues priorContent T) := by
  unfold mergedValues
  dsimp only
  refine merge_inv_fold T hT T [] _ rfl (dictOf_keys_nodup _) ?_ ?_
  · intro c al hal o ho
    left
    have halias : o ∈ aliasesOf
        (buildNamesByValue (dictOf (read_binary_enum_file priorContent))) c := by
      show o ∈ (dlookup _ c).getD []
      rw [show ((dictOf (read_binary_enum_file priorContent),
        buildNamesByValue (dictOf
          (read_binary_enum_file priorContent))).2) =
        buildNamesByValue (dictOf (read_binary_enum_file priorContent))
        from rfl] at hal
      rw [hal]
      exact ho
    have hmem := (mem_aliases_buildNBV _ o c).mp halias
    exact dlookup_eq_some_of_mem _ o c (dictOf_keys_nodup _) hmem
  · intro q hq
    exact absurd hq (by simp)

/-- When every pair of `T` is already incorporated in `M`, re-running the
merge over `T` changes nothing. -/
lemma merge_noop : ∀ (T : List (Int × String)) (M : List (String × Int)),
    Incorporated T M →
    T.foldl mergePairP (M, buildNamesByValue M) = (M, buildNamesByValue M)
  | [], M, _ => rfl
  | p :: t, M, hInc => by
    rw [List.foldl_cons]
    have hstep : mergePairP (M, buildNamesByValue M) p =
        (M, buildNamesByValue M) := by
      rcases hInc p (by simp) with ⟨o, ho, hl⟩
      have hmem : (o, p.1) ∈ M := mem_of_dlookup_eq_some M o p.1 ho
      have halias : o ∈ aliasesOf (buildNamesByValue M) p.1 :=
        (mem_aliases_buildNBV M o p.1).mpr hmem
      have hlook := dlookup_of_mem_aliases (buildNamesByValue M) p.1 o halias
      refine mergePairP_discard _ p _ hlook ?_
      exact List.any_eq_true.mpr ⟨o, halias, beq_iff_eq.mpr hl⟩
    rw [hstep]
    exact merge_noop t M (fun q hq => hInc q (List.mem_cons_of_mem _ hq))

/-! ### The emitted entries as a dictionary -/

lemma finalEntries_lookup (M : List (String × Int)) (n : String) (c : Int)
    (h : (n, c) ∈ finalEntries M) : dlookup M n = some c := by
  rcases List.mem_filterMap.mp h with ⟨n', _, hopt⟩
  rcases Option.map_eq_some'.mp hopt with ⟨c', hc', heq⟩
  cases heq
  exact hc'

lemma mem_finalEntries_of_lookup (M : List (String × Int)) (n : String)
    (c : Int) (h : dlookup M n = some c) : (n, c) ∈ finalEntries M := by
  have hkey : n ∈ M.map Prod.fst :=
    List.mem_map.mpr ⟨(n, c), mem_of_dlookup_eq_some M n c h, rfl⟩
  have hsorted : n ∈ sortedNames M :=
    ((List.perm_insertionSort _ _).mem_iff).mpr hkey
  refine List.mem_filterMap.mpr ⟨n, mem_dedupFirst _ [] n hsorted (by simp), ?_⟩
  rw [h]
  rfl

lemma finalEntries_keys_nodup (M : List (String × Int)) :
    ((finalEntries M).map Prod.fst).Nodup := by
  rw [finalEntries, map_fst_filterMap_lookup]
  exact (dedupFirst_nodup (sortedNames M) []).1.filter _

lemma dlookup_finalEntries (M : List (String × Int)) (n : String) :
    dlookup (finalEntries M) n = dlookup M n := by
  cases h : dlookup M n with
  | some c =>
    exact dlookup_eq_some_of_mem _ n c (finalEntries_keys_nodup M)
      (mem_finalEntries_of_lookup M n c h)
  | none =>
    rw [dlookup_eq_none_iff] at h ⊢
    intro hmem
    rcases List.mem_map.mp hmem with ⟨⟨n', c'⟩, hpair, hfst⟩
    dsimp at hfst
    subst hfst
    exact h (List.mem_map.mpr ⟨(n', c'),
      mem_of_dlookup_eq_some M n' c' (finalEntries_lookup M n' c' hpair), rfl⟩)

lemma dedupFirst_eq_self : ∀ (l seen : List String), l.Nodup →
    (∀ x ∈ l, x ∉ seen) → dedupFirst l seen = l
  | [], _, _, _ => rfl
  | n :: t, seen, hnd, hdisj => by
    rcases List.nodup_cons.mp hnd with ⟨hn, ht⟩
    rw [dedupFirst, if_neg (hdisj n (by simp))]
    rw [dedupFirst_eq_self t (n :: seen) ht]
    intro x hx
    intro hmem
    rcases List.mem_cons.mp hmem with h | h
    · exact hn (h ▸ hx)
    · exact hdisj x (List.mem_cons_of_mem _ hx) h

lemma sortedNames_nodup (M : List (String × Int))
    (hnd : (M.map Prod.fst).Nodup) : (sortedNames M).Nodup :=
  ((List.perm_insertionSort _ _).nodup_iff).mpr hnd

lemma map_fst_finalEntries (M : List (String × Int))
    (hnd : (M.map Prod.fst).Nodup) :
    (finalEntries M).map Prod.fst = sortedNames M := by
  rw [finalEntries, map_fst_filterMap_lookup,
    dedupFirst_eq_self (sortedNames M) [] (sortedNames_nodup M hnd) (by simp)]
  rw [List.filter_eq_self]
  intro n hn
  exact dlookup_isSome_of_mem_keys M n
    ((List.perm_insertionSort _ _).mem_iff.mp hn)

lemma finalEntries_perm (M : List (String × Int))
    (hnd : (M.map Prod.fst).Nodup) : (finalEntries M).Perm M := by
  have h1 : (finalEntries M).Nodup :=
    (finalEntries_keys_nodup M).of_map Prod.fst
  have h2 : M.Nodup := hnd.of_map Prod.fst
  rw [List.perm_ext_iff_of_nodup h1 h2]
  rintro ⟨n, c⟩
  constructor
  · intro h
    exact mem_of_dlookup_eq_some M n c (finalEntries_lookup M n c h)
  · intro h
    exact mem_finalEntries_of_lookup M n c (dlookup_eq_some_of_mem M n c hnd h)

/-! ### Sorting by Python string order -/

lemma charListLE_total : ∀ (a b : List Char),
    charListLE a b = true ∨ charListLE b a = true
  | [], _ => Or.inl rfl
  | _ :: _, [] => Or.inr rfl
  | a :: as, b :: bs => by
    rcases Nat.lt_trichotomy a.toNat b.toNat with h | h | h
    · left
      rw [charListLE, if_pos h]
    · rcases charListLE_total as bs with h' | h'
      · left
        rw [charListLE, if_neg (by omega), if_neg (by omega)]
        exact h'
      · right
        rw [charListLE, if_neg (by omega), if_neg (by omega)]
        exact h'
    · right
      rw [charListLE, if_pos h]

lemma charListLE_trans : ∀ (a b c : List Char), charListLE a b = true →
    charListLE b c = true → charListLE a c = true
  | [], _, _, _, _ => rfl
  | a :: as, [], c, h, _ => by rw [charListLE] at h; exact absurd h (by simp)
  | a :: as, b :: bs, [], _, h => by
    rw [charListLE] at h
    exact absurd h (by simp)
  | a :: as, b :: bs, c :: cs, h1, h2 => by
    rw [charListLE] at h1 h2 ⊢
    by_cases hab : a.toNat < b.toNat
    · rw [if_pos hab] at h1
      by_cases hbc : b.toNat < c.toNat
      · rw [if_pos (by omega)]
      · rw [if_neg hbc] at h2
        by_cases hcb : c.toNat < b.toNat
        · rw [if_pos hcb] at h2
          exact absurd h2 (by simp)
        · rw [if_pos (by omega)]
    · rw [if_neg hab] at h1
      by_cases hba : b.toNat < a.toNat
      · rw [if_pos hba] at h1
        exact absurd h1 (by simp)
      · rw [if_neg hba] at h1
        by_cases hbc : b.toNat < c.toNat
        · rw [if_pos (by omega)]
        · rw [if_neg hbc] at h2
          by_cases hcb : c.toNat < b.toNat
          · rw [if_pos hcb] at h2
            exact absurd h2 (by simp)
          · rw [if_neg hcb] at h2
            rw [if_neg (by omega), if_neg (by omega)]
            exact charListLE_trans as bs cs h1 h2

lemma char_toNat_inj (a b : Char) (h : a.toNat = b.toNat) : a = b :=
  Char.ext (UInt32.ext h)

lemma charListLE_antisymm : ∀ (a b : List Char), charListLE a b = true →
    charListLE b a = true → a = b
  | [], [], _, _ => rfl
  | [], b :: bs, _, h => by rw [charListLE] at h; exact absurd h (by simp)
  | a :: as, [], h, _ => by rw [charListLE] at h; exact absurd h (by simp)
  | a :: as, b :: bs, h1, h2 => by
    rw [charListLE] at h1 h2
    by_cases hab : a.toNat < b.toNat
    · rw [if_neg (by omega), if_pos hab] at h2
      exact absurd h2 (by simp)
    · by_cases hba : b.toNat < a.toNat
      · rw [if_neg hab, if_pos hba] at h1
        exact absurd h1 (by simp)
      · rw [if_neg hab, if_neg hba] at h1
        rw [if_neg hba, if_neg hab] at h2
        have heq : a = b := char_toNat_inj a b (by omega)
        rw [heq, charListLE_antisymm as bs h1 h2]

lemma stringLE_total (a b : String) : stringLE a b = true ∨ stringLE b a = true :=
  charListLE_total a.data b.data

lemma stringLE_trans (a b c : String) (h1 : stringLE a b = true)
    (h2 : stringLE b c = true) : stringLE a c = true :=
  charListLE_trans a.data b.data c.data h1 h2

lemma stringLE_antisymm (a b : String) (h1 : stringLE a b = true)
    (h2 : stringLE b a = true) : a = b := by
  cases a
  cases b
  exact congrArg String.mk (charListLE_antisymm _ _ h1 h2)

lemma sortedNames_eq_of_perm (M M' : List (String × Int))
    (h : (M.map Prod.fst).Perm (M'.map Prod.fst)) :
    sortedNames M = sortedNames M' := by
  letI : IsTotal String (fun a b => stringLE a b = true) := ⟨stringLE_total⟩
  letI : IsTrans String (fun a b => stringLE a b = true) :=
    ⟨fun a b c => stringLE_trans a b c⟩
  letI : IsAntisymm String (fun a b => stringLE a b = true) :=
    ⟨fun a b => stringLE_antisymm a b⟩
  refine List.eq_of_perm_of_sorted ?_
    (List.sorted_insertionSort _ _) (List.sorted_insertionSort _ _)
  exact ((List.perm_insertionSort _ _).trans h).trans
    (List.perm_insertionSort _ _).symm

lemma foldl_max_perm : ∀ {M M' : List (String × Int)}, M.Perm M' →
    ∀ (a : Nat), M.foldl (fun m e => max m e.1.length) a =
      M'.foldl (fun m e => max m e.1.length) a := by
  intro M M' h
  induction h with
  | nil => intro a; rfl
  | cons x _ ih => intro a; rw [List.foldl_cons, List.foldl_cons, ih]
  | swap x y l =>
    intro a
    rw [List.foldl_cons, List.foldl_cons, List.foldl_cons, List.foldl_cons,
      sup_right_comm]
  | trans _ _ ih1 ih2 => intro a; rw [ih1, ih2]

lemma maxNameLength_perm (M M' : List (String × Int)) (h : M.Perm M') :
    maxNameLength M = maxNameLength M' :=
  foldl_max_perm h 1

/-! ### Decimal digit strings -/

lemma natDigitsAux_succ (fuel n : Nat) (acc : List Char) :
    natDigitsAux (fuel + 1) n acc =
      if n < 10 then Char.ofNat (48 + n % 10) :: acc
      else natDigitsAux fuel (n / 10) (Char.ofNat (48 + n % 10) :: acc) := rfl

lemma natDigitsAux_acc : ∀ (fuel n : Nat) (acc : List Char),
    natDigitsAux fuel n acc = natDigitsAux fuel n [] ++ acc
  | 0, n, acc => rfl
  | fuel + 1, n, acc => by
    rw [natDigitsAux_succ, natDigitsAux_succ]
    by_cases h : n < 10
    · rw [if_pos h, if_pos h]
      rfl
    · rw [if_neg h, if_neg h,
        natDigitsAux_acc fuel (n / 10) (Char.ofNat (48 + n % 10) :: acc),
        natDigitsAux_acc fuel (n / 10) [Char.ofNat (48 + n % 10)],
        List.append_assoc]
      rfl

lemma natDigitsAux_fuel (n : Nat) : ∀ (f1 f2 : Nat), n < f1 → n < f2 →
    ∀ acc, natDigitsAux f1 n acc = natDigitsAux f2 n acc := by
  induction n using Nat.strong_induction_on with
  | _ n ih =>
    intro f1 f2 h1 h2 acc
    cases f1 with
    | zero => omega
    | succ g1 =>
      cases f2 with
      | zero => omega
      | succ g2 =>
        rw [natDigitsAux_succ, natDigitsAux_succ]
        by_cases h : n < 10
        · rw [if_pos h, if_pos h]
        · rw [if_neg h, if_neg h]
          have hdiv : n / 10 < n := Nat.div_lt_self (by omega) (by omega)
          exact ih (n / 10) hdiv g1 g2 (by omega) (by omega) _

lemma natDigits_lt (n : Nat) (h : n < 10) :
    natDigits n = [Char.ofNat (48 + n % 10)] := by
  unfold natDigits
  rw [natDigitsAux_succ, if_pos h]

lemma natDigits_ge (n : Nat) (h : 10 ≤ n) :
    natDigits n = natDigits (n / 10) ++ [Char.ofNat (48 + n % 10)] := by
  unfold natDigits
  rw [natDigitsAux_succ, if_neg (by omega), natDigitsAux_acc]
  congr 1
  have hdiv : n / 10 < n := Nat.div_lt_self (by omega) (by omega)
  exact natDigitsAux_fuel (n / 10) n (n / 10 + 1) hdiv (by omega) []

lemma digit_char_facts : ∀ m, m < 10 → (Char.ofNat (48 + m)).isDigit = true ∧
    isWS (Char.ofNat (48 + m)) = false ∧ (Char.ofNat (48 + m)).toNat = 48 + m ∧
    Char.ofNat (48 + m) ≠ '\n' := by decide

lemma natDigits_spec (n : Nat) :
    (∀ c ∈ natDigits n, c.isDigit = true ∧ isWS c = false ∧ c ≠ '\n') ∧
    natDigits n ≠ [] ∧ digitsVal (natDigits n) = n := by
  induction n using Nat.strong_induction_on with
  | _ n ih =>
    by_cases h : n < 10
    · rw [natDigits_lt n h]
      have hm : n % 10 = n := Nat.mod_eq_of_lt h
      obtain ⟨f1, f2, f3, f4⟩ := digit_char_facts (n % 10) (by omega)
      refine ⟨?_, by simp, ?_⟩
      · intro c hc
        have := List.mem_singleton.mp hc
        subst this
        exact ⟨f1, f2, f4⟩
      · show (0 * 10 + ((Char.ofNat (48 + n % 10)).toNat - 48)) = n
        rw [f3]
        omega
    · rw [natDigits_ge n (by omega)]
      obtain ⟨ihm, ihne, ihval⟩ := ih (n / 10)
        (Nat.div_lt_self (by omega) (by omega))
      obtain ⟨f1, f2, f3, f4⟩ := digit_char_facts (n % 10)
        (Nat.mod_lt _ (by omega))
      refine ⟨?_, by simp, ?_⟩
      · intro c hc
        rcases List.mem_append.mp hc with h' | h'
        · exact ihm c h'
        · have := List.mem_singleton.mp h'
          subst this
          exact ⟨f1, f2, f4⟩
      · show digitsVal (natDigits (n / 10) ++ [Char.ofNat (48 + n % 10)]) = n
        unfold digitsVal
        rw [List.foldl_append]
        show digitsVal (natDigits (n / 10)) * 10 +
          ((Char.ofNat (48 + n % 10)).toNat - 48) = n
        rw [ihval, f3]
        omega

lemma intChars_nonneg (c : Int) (h : 0 ≤ c) : intChars c = natDigits c.toNat := by
  unfold intChars
  rw [if_neg (by omega)]

/-! ### takeWhile and dropWhile over structured lines -/

lemma takeWhile_app (p : Char → Bool) : ∀ (a l : List Char),
    (∀ x ∈ a, p x = true) → (a ++ l).takeWhile p = a ++ l.takeWhile p
  | [], l, _ => rfl
  | c :: a', l, h => by
    rw [List.cons_append, List.takeWhile_cons, if_pos (h c (by simp)),
      takeWhile_app p a' l (fun x hx => h x (by simp [hx]))]
    rfl

lemma dropWhile_app (p : Char → Bool) : ∀ (a l : List Char),
    (∀ x ∈ a, p x = true) → (a ++ l).dropWhile p = l.dropWhile p
  | [], l, _ => rfl
  | c :: a', l, h => by
    rw [List.cons_append, List.dropWhile_cons, if_pos (h c (by simp))]
    exact dropWhile_app p a' l (fun x hx => h x (by simp [hx]))

lemma takeWhile_neg_head (p : Char → Bool) (c : Char) (l : List Char)
    (h : p c = false) : (c :: l).takeWhile p = [] := by
  rw [List.takeWhile_cons, if_neg (by simp [h])]

lemma dropWhile_neg_head (p : Char → Bool) (c : Char) (l : List Char)
    (h : p c = false) : (c :: l).dropWhile p = c :: l := by
  rw [List.dropWhile_cons, if_neg (by simp [h])]

lemma dropWhile_pos_head (p : Char → Bool) (c : Char) (l : List Char)
    (h : p c = true) : (c :: l).dropWhile p = l.dropWhile p := by
  rw [List.dropWhile_cons, if_pos h]

lemma takeWhile_neg_headApp (p : Char → Bool) (c : Char) (l l' : List Char)
    (h : p c = false) : ((c :: l) ++ l').takeWhile p = [] :=
  takeWhile_neg_head p c (l ++ l') h

lemma dropWhile_neg_headApp (p : Char → Bool) (c : Char) (l l' : List Char)
    (h : p c = false) : ((c :: l) ++ l').dropWhile p = (c :: l) ++ l' :=
  dropWhile_neg_head p c (l ++ l') h

/-- The regex of line 442 on any line of the shape
`whitespace, token, whitespace, parenthesized digits, garbage`. -/
lemma parseLineC_shape (sp tok ws2 D tail : List Char)
    (hsp1 : sp ≠ []) (hsp2 : ∀ x ∈ sp, isWS x = true)
    (htok1 : tok ≠ []) (htok2 : ∀ x ∈ tok, isWS x = false)
    (hws1 : ws2 ≠ []) (hws2 : ∀ x ∈ ws2, isWS x = true)
    (hD1 : D ≠ []) (hD2 : ∀ x ∈ D, x.isDigit = true) :
    parseLineC (sp ++ (tok ++ (ws2 ++ ('(' :: (D ++ (')' :: tail)))))) =
      some (⟨tok⟩, (digitsVal D : Int)) := by
  rcases List.exists_cons_of_ne_nil hsp1 with ⟨s0, sp', rfl⟩
  rcases List.exists_cons_of_ne_nil htok1 with ⟨t0, tok', rfl⟩
  rcases List.exists_cons_of_ne_nil hws1 with ⟨w0, ws2', rfl⟩
  rcases List.exists_cons_of_ne_nil hD1 with ⟨d0, D', rfl⟩
  have hd0 : isWS '(' = false := by decide
  have hdig : Char.isDigit ')' = false := by decide
  have hpws : isWS ')' = false := by decide
  unfold parseLineC
  rw [takeWhile_app isWS _ _ hsp2,
    takeWhile_neg_headApp isWS t0 tok' _ (htok2 t0 (by simp)),
    List.append_nil, if_neg (by simp),
    dropWhile_app isWS _ _ hsp2,
    dropWhile_neg_headApp isWS t0 tok' _ (htok2 t0 (by simp)),
    takeWhile_app (fun c => !isWS c) _ _ (fun x hx => by simp [htok2 x hx]),
    takeWhile_neg_headApp (fun c => !isWS c) w0 ws2' _
      (by simp [hws2 w0 (by simp)]),
    List.append_nil, if_neg (by simp),
    dropWhile_app (fun c => !isWS c) _ _ (fun x hx => by simp [htok2 x hx]),
    dropWhile_neg_headApp (fun c => !isWS c) w0 ws2' _
      (by simp [hws2 w0 (by simp)]),
    takeWhile_app isWS _ _ hws2,
    takeWhile_neg_head isWS '(' _ hd0, List.append_nil,
    if_neg (by simp),
    dropWhile_app isWS _ _ hws2,
    dropWhile_neg_head isWS '(' _ hd0]
  dsimp only
  rw [if_pos rfl, takeWhile_app Char.isDigit _ _ hD2,
    takeWhile_neg_head Char.isDigit ')' _ hdig, List.append_nil,
    if_neg (by simp), dropWhile_app Char.isDigit _ _ hD2,
    dropWhile_neg_head Char.isDigit ')' _ hdig]
  dsimp only
  rw [if_pos rfl]

/-! ### Splitting the rendered file back into lines -/

lemma splitLinesC_nl (l : List Char) :
    splitLinesC ('\n' :: l) = [] :: splitLinesC l := by
  simp [splitLinesC]

lemma splitLinesC_append : ∀ (a b : List Char), (∀ c ∈ a, c ≠ '\n') →
    splitLinesC (a ++ '\n' :: b) = a :: splitLinesC b
  | [], b, _ => by
    rw [List.nil_append]
    exact splitLinesC_nl b
  | c :: a, b, h => by
    have ih := splitLinesC_append a b (fun x hx => h x (List.mem_cons_of_mem _ hx))
    rw [List.cons_append]
    simp only [splitLinesC]
    rw [if_neg (h c (List.mem_cons_self c a)), ih]

/-- A line that does not start with whitespace never matches the
enum-entry regex (which demands leading whitespace). -/
lemma parseLineC_nonws (c : Char) (l : List Char) (h : isWS c = false) :
    parseLineC (c :: l) = none := by
  unfold parseLineC
  rw [takeWhile_neg_head isWS c l h]
  rfl

/-! ### The non-entry lines of a rendered file parse to nothing -/

lemma parseLineC_headerLine1 (aEnumName : String) :
    parseLineC (headerLine1 aEnumName) = none :=
  parseLineC_nonws '%' _ (by decide)

lemma parseLineC_headerLine2 : parseLineC headerLine2 = none := by
  decide

lemma parseLineC_classdefLine (aEnumName aBaseType : String) :
    parseLineC (classdefLine aEnumName aBaseType) = none :=
  parseLineC_nonws 'c' _ (by decide)

lemma parseLineC_enumLine : parseLineC (("    enumeration").data) = none := by
  decide

/-! ### No rendered line contains a stray newline -/

lemma ne_nl_of_not_ws (x : Char) (h : isWS x = false) : x ≠ '\n' := by
  intro he
  subst he
  exact absurd h (by decide)

lemma headerLine1_noNL (aEnumName aBaseType : String)
    (hHdr : HeaderSafe aEnumName aBaseType) :
    ∀ x ∈ headerLine1 aEnumName, x ≠ '\n' := by
  intro x hx
  rcases List.mem_append.mp hx with hx | hx
  · rcases List.mem_append.mp hx with hx | hx
    · exact (by decide : ∀ y ∈ ("%   ").data, y ≠ '\n') x hx
    · exact hHdr.2.1 x hx
  · exact (by decide : ∀ y ∈ (" Enumeration to assist with interpreting Zaber Binary protocol codes.").data, y ≠ '\n') x hx

lemma headerLine2_noNL : ∀ x ∈ headerLine2, x ≠ '\n' := by
  decide

lemma classdefLine_noNL (aEnumName aBaseType : String)
    (hHdr : HeaderSafe aEnumName aBaseType) :
    ∀ x ∈ classdefLine aEnumName aBaseType, x ≠ '\n' := by
  intro x hx
  rcases List.mem_append.mp hx with hx | hx
  · rcases List.mem_append.mp hx with hx | hx
    · rcases List.mem_append.mp hx with hx | hx
      · exact (by decide : ∀ y ∈ ("classdef ").data, y ≠ '\n') x hx
      · exact hHdr.1 x hx
    · exact (by decide : ∀ y ∈ (" < ").data, y ≠ '\n') x hx
  · exact hHdr.2.2 x hx

lemma entryLineC_noNL (L : Nat) (e : String × Int) (hwf : WfName e.1)
    (hc : 0 ≤ e.2) : ∀ x ∈ entryLineC L e, x ≠ '\n' := by
  intro x hx
  unfold entryLineC at hx
  rcases List.mem_append.mp hx with hx | hx
  · exact (by decide : ∀ y ∈ ("        ").data, y ≠ '\n') x hx
  rcases List.mem_append.mp hx with hx | hx
  · exact ne_nl_of_not_ws x (hwf.2 x hx)
  rcases List.mem_append.mp hx with hx | hx
  · have := List.eq_of_mem_replicate hx
    subst this
    decide
  rw [List.mem_cons] at hx
  rcases hx with rfl | hx
  · decide
  rw [List.mem_cons] at hx
  rcases hx with rfl | hx
  · decide
  rcases List.mem_append.mp hx with hx | hx
  · rw [intChars_nonneg e.2 hc] at hx
    exact ((natDigits_spec e.2.toNat).1 x hx).2.2
  · rw [List.mem_singleton] at hx
    subst hx
    decide

/-! ### An emitted entry line parses back to its entry -/

lemma entryLineC_append (L : Nat) (e : String × Int) (rest : List Char) :
    entryLineC L e ++ rest =
      ("        ").data ++ (e.1.data ++
        ((List.replicate (L - e.1.data.length) ' ' ++ [' ']) ++
          ('(' :: (intChars e.2 ++ (')' :: rest))))) := by
  simp [entryLineC, List.append_assoc]

lemma parse_entryLine (L : Nat) (e : String × Int) (rest : List Char)
    (hwf : WfName e.1) (hc : 0 ≤ e.2) :
    parseLineC (entryLineC L e ++ rest) = some e := by
  obtain ⟨hne, hnws⟩ := hwf
  obtain ⟨hD, hDne, hDval⟩ := natDigits_spec e.2.toNat
  rw [entryLineC_append, intChars_nonneg e.2 hc]
  rw [parseLineC_shape ("        ").data e.1.data
    (List.replicate (L - e.1.data.length) ' ' ++ [' '])
    (natDigits e.2.toNat) rest
    (by decide) (by decide) hne hnws
    (by simp)
    (by
      intro x hx
      rcases List.mem_append.mp hx with hx | hx
      · have := List.eq_of_mem_replicate hx
        subst this
        decide
      · rw [List.mem_singleton] at hx
        subst hx
        decide)
    hDne (fun x hx => (hD x hx).1)]
  rw [hDval, Int.toNat_of_nonneg hc]

/-! ### The whole entry block parses back to its entries -/

lemma body_parse : ∀ (entries : List (String × Int)) (L : Nat),
    (∀ e ∈ entries, WfName e.1 ∧ 0 ≤ e.2) →
    (splitLinesC (joinBody L entries ++ '\n' :: footerChars)).filterMap
      parseLineC = entries
  | [], _, _ => by
    show (splitLinesC (([] : List Char) ++ '\n' :: footerChars)).filterMap
      parseLineC = ([] : List (String × Int))
    decide
  | [e], L, hwf => by
    show (splitLinesC (entryLineC L e ++ '\n' :: footerChars)).filterMap
      parseLineC = [e]
    rw [splitLinesC_append _ _
      (entryLineC_noNL L e (hwf e (by simp)).1 (hwf e (by simp)).2)]
    have hp : parseLineC (entryLineC L e) = some e := by
      have h := parse_entryLine L e [] (hwf e (by simp)).1 (hwf e (by simp)).2
      rwa [List.append_nil] at h
    rw [List.filterMap_cons_some hp,
      show (splitLinesC footerChars).filterMap parseLineC = [] from by decide]
  | e :: e' :: rest, L, hwf => by
    have ih := body_parse (e' :: rest) L
      (fun x hx => hwf x (List.mem_cons_of_mem _ hx))
    show (splitLinesC ((entryLineC L e ++ ',' :: '\n' :: joinBody L (e' :: rest))
      ++ '\n' :: footerChars)).filterMap parseLineC = e :: e' :: rest
    have hassoc : (entryLineC L e ++ ',' :: '\n' :: joinBody L (e' :: rest))
        ++ '\n' :: footerChars
        = (entryLineC L e ++ [',']) ++
            '\n' :: (joinBody L (e' :: rest) ++ '\n' :: footerChars) := by
      simp [List.append_assoc]
    rw [hassoc]
    rw [splitLinesC_append _ _ ?noNL]
    case noNL =>
      intro x hx
      rcases List.mem_append.mp hx with hx | hx
      · exact entryLineC_noNL L e (hwf e (by simp)).1 (hwf e (by simp)).2 x hx
      · rw [List.mem_singleton] at hx
        subst hx
        decide
    have hp : parseLineC (entryLineC L e ++ [',']) = some e :=
      parse_entryLine L e [','] (hwf e (by simp)).1 (hwf e (by simp)).2
    rw [List.filterMap_cons_some hp, ih]

/-! ### Reading back a rendered file recovers exactly its entries -/

lemma read_renderFile (aEnumName aBaseType : String) (M : List (String × Int))
    (hHdr : HeaderSafe aEnumName aBaseType)
    (hwf : ∀ p ∈ finalEntries M, WfName p.1 ∧ 0 ≤ p.2) :
    read_binary_enum_file (renderFile aEnumName aBaseType M) = finalEntries M := by
  have h0 : parseLineC ([] : List Char) = none := rfl
  show (splitLinesC (headerLine1 aEnumName ++ '\n' :: '\n' ::
      (headerLine2 ++ '\n' :: '\n' ::
        (classdefLine aEnumName aBaseType ++ '\n' ::
          (("    enumeration").data ++ '\n' ::
            (joinBody (maxNameLength M) (finalEntries M) ++
              '\n' :: footerChars)))))).filterMap parseLineC = finalEntries M
  rw [splitLinesC_append _ _ (headerLine1_noNL aEnumName aBaseType hHdr),
    splitLinesC_nl,
    splitLinesC_append _ _ headerLine2_noNL,
    splitLinesC_nl,
    splitLinesC_append _ _ (classdefLine_noNL aEnumName aBaseType hHdr),
    splitLinesC_append _ _ (by decide : ∀ x ∈ ("    enumeration").data, x ≠ '\n')]
  rw [List.filterMap_cons_none (parseLineC_headerLine1 aEnumName),
    List.filterMap_cons_none h0,
    List.filterMap_cons_none parseLineC_headerLine2,
    List.filterMap_cons_none h0,
    List.filterMap_cons_none (parseLineC_classdefLine aEnumName aBaseType),
    List.filterMap_cons_none parseLineC_enumLine]
  exact body_parse (finalEntries M) (maxNameLength M) hwf

/-- C1 (amended): the merge is idempotent on inputs of the shape the
enumerator actually produces.  If the enum and base-type names contain
no newline, every incoming pair carries a nonempty whitespace-free
sanitized name and a nonnegative code, and no two incoming pairs carry
case-insensitively equal sanitized names with different codes, then
running `write_binary_enum_file` a second time on the same pair list
against the first run's output reproduces that output byte for byte. -/
theorem claim1_amended (aCodeTable : List (Int × String))
    (aEnumName aBaseType : String) (priorContent F1 F2 : String)
    (hHdr : HeaderSafe aEnumName aBaseType)
    (hwf : ∀ p ∈ aCodeTable, WfName (sanitize p.2) ∧ 0 ≤ p.1)
    (hT : ∀ p ∈ aCodeTable, ∀ q ∈ aCodeTable,
      pyLower (sanitize p.2) = pyLower (sanitize q.2) → p.1 = q.1)
    (h1 : write_binary_enum_file aCodeTable aEnumName aBaseType
      (some priorContent) = .ok F1)
    (h2 : write_binary_enum_file aCodeTable aEnumName aBaseType
      (some F1) = .ok F2) :
    F2 = F1 := by
  rw [write_some_eq] at h1 h2
  have hF1 : F1 = renderFile aEnumName aBaseType
      (mergedValues priorContent aCodeTable) := (Except.ok.inj h1).symm
  have hF2 : F2 = renderFile aEnumName aBaseType
      (mergedValues F1 aCodeTable) := (Except.ok.inj h2).symm
  set M1 := mergedValues priorContent aCodeTable with hM1def
  have hnd1 : (M1.map Prod.fst).Nodup := mergedValues_keys_nodup _ _
  have hwfM1 : ∀ x ∈ M1, WfName x.1 ∧ 0 ≤ x.2 := mergedValues_wf _ _ hwf
  have hwfFE : ∀ p ∈ finalEntries M1, WfName p.1 ∧ 0 ≤ p.2 := by
    rintro ⟨n, c⟩ hp
    exact hwfM1 (n, c)
      (mem_of_dlookup_eq_some M1 n c (finalEntries_lookup M1 n c hp))
  have hread : read_binary_enum_file F1 = finalEntries M1 := by
    rw [hF1]
    exact read_renderFile _ _ _ hHdr hwfFE
  have hfeNodup : ((finalEntries M1).map Prod.fst).Nodup :=
    finalEntries_keys_nodup M1
  have hM2 : mergedValues F1 aCodeTable = finalEntries M1 := by
    show (aCodeTable.foldl mergePairP
      (dictOf (read_binary_enum_file F1),
        buildNamesByValue (dictOf (read_binary_enum_file F1)))).1 =
      finalEntries M1
    rw [hread, dictOf_self _ hfeNodup]
    rw [merge_noop aCodeTable (finalEntries M1) ?hInc]
    case hInc =>
      intro p hp
      rcases mergedValues_incorporated priorContent aCodeTable hT p hp
        with ⟨o, ho, hol⟩
      exact ⟨o, by rw [dlookup_finalEntries M1 o]; exact ho, hol⟩
  have hperm : (finalEntries M1).Perm M1 := finalEntries_perm M1 hnd1
  have hml : maxNameLength (finalEntries M1) = maxNameLength M1 :=
    maxNameLength_perm _ _ hperm
  have hsn : sortedNames (finalEntries M1) = sortedNames M1 :=
    sortedNames_eq_of_perm _ _ (hperm.map _)
  have hfe2 : finalEntries (finalEntries M1) = finalEntries M1 := by
    have houter : finalEntries (finalEntries M1) =
        (dedupFirst (sortedNames (finalEntries M1)) []).filterMap
          (fun n => (dlookup (finalEntries M1) n).map (fun c => (n, c))) := rfl
    rw [houter, hsn]
    exact List.filterMap_congr (fun n _ => by rw [dlookup_finalEntries M1 n])
  rw [hF2, hM2, hF1]
  unfold renderFile
  rw [hml, hfe2]

/-- C1 (amended, witness): with enum name `"E"`, base type `"u"`, the
entry-less prior listing and the single pair `(1, "a")`, both runs
produce the listing with the single entry `a (1)`, and `claim1_amended`
applies: all its hypotheses hold for this input. -/
theorem claim1_amended_witness :
    write_binary_enum_file [((1 : Int), "a")] "E" "u"
        (some (renderFile "E" "u" [])) = .ok (renderFile "E" "u" [("a", 1)]) ∧
    write_binary_enum_file [((1 : Int), "a")] "E" "u"
        (some (renderFile "E" "u" [("a", 1)])) =
      .ok (renderFile "E" "u" [("a", 1)]) ∧
    renderFile "E" "u" [("a", 1)] = renderFile "E" "u" [("a", 1)] :=
  ⟨by decide, by decide,
    claim1_amended [((1 : Int), "a")] "E" "u" (renderFile "E" "u" [])
      (renderFile "E" "u" [("a", 1)]) (renderFile "E" "u" [("a", 1)])
      (by decide) (by decide) (by decide) (by decide) (by decide)⟩

end ZaberUpdater
